import Mathlib

/-!
Verification of the memory-x hierarchical memory engine.

This file gives a shallow embedding, in Lean 4, of the core data model and
operations of the memory-x repository: the four-level memory hierarchy
(Original, Episode, Semantic, Theme), the in-memory store and engine
(core/engine.ts), the better-sqlite3 store (store/sqlite-store.ts), the
sql.js store (store/sqljs-store.ts), the forgetting mechanism
(dynamics/forgetting.ts), the conflict detector (dynamics/conflict.ts) and
the knowledge graph with its breadth-first path search
(reasoning/knowledge-graph.ts).

Modelling conventions:
 - JavaScript numbers are modelled as naturals (timestamps, counters) and
   rationals (scores, confidences, weights); values produced by Math.exp and
   Math.log10 are modelled as real numbers via Real.exp and Real.logb.
 - JavaScript falsy coalescing `x || y` is modelled by helpers that treat 0,
   the empty string and a missing (undefined) value as falsy.
 - `Date.now()` is modelled as an explicit ambient parameter `now`; a single
   operation that reads the clock several times is given one time value.
 - JS Map.set / SQL INSERT OR REPLACE keyed on the primary key are modelled
   by `upsert`, which replaces the first entry carrying the same key in
   place and otherwise appends.
 - `content.toLowerCase().includes(query.toLowerCase())` (and the SQL
   `LIKE '%q%'`, which is case-insensitive for ASCII) is modelled by
   `likeMatch` over lists of characters mapped through Char.toLower.
-/

/-- JavaScript `x || y` where x is a number: 0 is falsy. -/
def jsOrNat (x y : ℕ) : ℕ := if x = 0 then y else x

/-- JavaScript `x || y` where x is a rational score: 0 is falsy. -/
def jsOrQ (x y : ℚ) : ℚ := if x = 0 then y else x

/-- JavaScript `x || y` where x is a string: the empty string is falsy. -/
def jsOrStr (x y : String) : String := if x = "" then y else x

/-- A possibly-undefined JS number; undefined behaves like the falsy 0. -/
def optNat (o : Option ℕ) : ℕ := o.getD 0

/-- A possibly-undefined JS rational; undefined behaves like the falsy 0. -/
def optQ (o : Option ℚ) : ℚ := o.getD 0

/-- A possibly-undefined JS string; undefined behaves like the falsy "". -/
def optStr (o : Option String) : String := o.getD ""

/-- The characters of a string, lower-cased (models String.toLowerCase on
the ASCII data handled by the repository). -/
def lowerChars (s : String) : List Char := s.data.map Char.toLower

/-- Boolean substring containment on character lists (JS String.includes). -/
def containsSub (l sub : List Char) : Bool :=
  l.tails.any fun t => sub.isPrefixOf t

/-- Case-insensitive substring match of `query` inside `content`; this is
`content.toLowerCase().includes(query.toLowerCase())` and also the SQLite
`content LIKE '%query%'` (ASCII case-insensitive). -/
def likeMatch (content query : String) : Bool :=
  containsSub (lowerChars content) (lowerChars query)

theorem containsSub_iff (l sub : List Char) :
    containsSub l sub = true ↔ sub <:+: l := by
  simp only [containsSub, List.any_eq_true, List.mem_tails,
    List.isPrefixOf_iff_prefix, List.infix_iff_prefix_suffix]
  constructor
  · rintro ⟨t, h1, h2⟩
    exact ⟨t, h2, h1⟩
  · rintro ⟨t, h1, h2⟩
    exact ⟨t, h2, h1⟩

/-- JS Map.set keyed by `key`: replace the first entry with the same key in
place, otherwise append at the end (a JS Map keeps the insertion position of
an overwritten key). The same function models SQL INSERT OR REPLACE on a
primary-key column. -/
def upsert {α : Type} (key : α → String) : List α → α → List α
  | [], x => [x]
  | y :: ys, x => if key y = key x then x :: ys else y :: upsert key ys x

theorem upsert_of_fresh {α : Type} (key : α → String) (xs : List α) (x : α)
    (h : ∀ y ∈ xs, key y ≠ key x) : upsert key xs x = xs ++ [x] := by
  induction xs with
  | nil => rfl
  | cons y ys ih =>
    have hy : key y ≠ key x := h y (by simp)
    simp only [upsert, if_neg hy, List.cons_append, List.cons.injEq, true_and]
    exact ih fun z hz => h z (by simp [hz])

theorem upsert_replace {α : Type} (key : α → String) (pre suf : List α)
    (t x : α) (hk : key x = key t)
    (hpre : ∀ y ∈ pre, key y ≠ key t) :
    upsert key (pre ++ t :: suf) x = pre ++ x :: suf := by
  induction pre with
  | nil => simp [upsert, hk]
  | cons y ys ih =>
    have hy : key y ≠ key x := by
      rw [hk]; exact hpre y (by simp)
    simp only [List.cons_append, upsert, if_neg hy, List.cons.injEq, true_and]
    exact ih fun z hz => hpre z (by simp [hz])

/-! ## The four memory record levels (types.ts) -/

inductive MemoryLevel
  | original
  | episode
  | semantic
  | theme
  deriving DecidableEq

inductive SemanticType
  | fact
  | preference
  | goal
  | constraint
  | event
  deriving DecidableEq

inductive Speaker
  | user
  | agent
  deriving DecidableEq

inductive BoundaryType
  | time
  | topic
  | intent
  deriving DecidableEq

structure OrigMeta where
  sentiment : Option ℚ := none
  importance : Option ℚ := none
  deriving DecidableEq

/-- A Semantic's optional validity period; the source field `end` is called
`endOpt` here because `end` is reserved in Lean. -/
structure ValidityPeriod where
  start : ℕ
  endOpt : Option ℕ := none
  deriving DecidableEq

/-- OriginalMemory. `createdAtOpt`/`updatedAtOpt` are not declared on the TS
interface but are attached at runtime by the sqlite store's rowToMemory and
read back duck-typed (`(memory as any).createdAt`); records built by the
engine itself leave them absent. -/
structure OriginalMemory where
  id : String
  content : String
  timestamp : ℕ
  sessionId : String
  speaker : Speaker
  metadata : Option OrigMeta := none
  createdAtOpt : Option ℕ := none
  updatedAtOpt : Option ℕ := none
  deriving DecidableEq

structure EpisodeMemory where
  id : String
  summary : String
  originalIds : List String
  startTime : ℕ
  endTime : ℕ
  boundaryType : BoundaryType
  coherenceScore : ℚ
  createdAtOpt : Option ℕ := none
  updatedAtOpt : Option ℕ := none
  deriving DecidableEq

structure SemanticMemory where
  id : String
  content : String
  type : SemanticType
  confidence : ℚ
  sourceEpisodes : List String
  entityRefs : List String
  validityPeriod : Option ValidityPeriod := none
  conflictingWith : Option (List String) := none
  createdAtOpt : Option ℕ := none
  updatedAtOpt : Option ℕ := none
  deriving DecidableEq

structure ThemeMemory where
  id : String
  name : String
  description : String
  semanticIds : List String
  parentTheme : Option String := none
  childThemes : Option (List String) := none
  coherenceScore : ℚ
  createdAt : ℕ
  updatedAt : ℕ
  deriving DecidableEq

/-- AnyMemory, the runtime union of the four record shapes. The source
discriminates members by field presence; the constructors of this sum play
that role here, since each variant carries exactly the fields probed for. -/
inductive AnyMemory
  | original (m : OriginalMemory)
  | episode (m : EpisodeMemory)
  | semantic (m : SemanticMemory)
  | theme (m : ThemeMemory)
  deriving DecidableEq

def AnyMemory.id : AnyMemory → String
  | .original m => m.id
  | .episode m => m.id
  | .semantic m => m.id
  | .theme m => m.id

/-- getLevel as written in both stores: `"originalIds" in memory` selects
episodes, `"sourceEpisodes" in memory` semantics, `"semanticIds" in memory`
themes, anything else originals. Those fields exist exactly on the
corresponding variants. -/
def getLevel : AnyMemory → MemoryLevel
  | .episode _ => .episode
  | .semantic _ => .semantic
  | .theme _ => .theme
  | .original _ => .original

/-- extractContent / getContent: `content`, else `summary`, else
`description`. -/
def extractContent : AnyMemory → String
  | .original m => m.content
  | .semantic m => m.content
  | .episode m => m.summary
  | .theme m => m.description

/-- `(memory as any).createdAt` read as a JS number (absent behaves as the
falsy 0; a Theme declares createdAt, the others may carry it duck-typed). -/
def memCreatedAtNat : AnyMemory → ℕ
  | .original m => optNat m.createdAtOpt
  | .episode m => optNat m.createdAtOpt
  | .semantic m => optNat m.createdAtOpt
  | .theme m => m.createdAt

/-- `(memory as any).timestamp` read as a JS number (only Originals have
it). -/
def memTimestampNat : AnyMemory → ℕ
  | .original m => m.timestamp
  | _ => 0

/-! ## InMemoryStore (core/engine.ts, bottom half)

One JS Map per level, keyed by record id, in insertion order. -/

structure InMemoryStore where
  originals : List OriginalMemory := []
  episodes : List EpisodeMemory := []
  semantics : List SemanticMemory := []
  themes : List ThemeMemory := []
  deriving DecidableEq

namespace InMemoryStore

/-- save: `this.memories.get(this.getLevel(memory)).set(memory.id, memory)`;
the getLevel dispatch is the constructor of the sum. -/
def save (s : InMemoryStore) : AnyMemory → InMemoryStore
  | .original m => { s with originals := upsert OriginalMemory.id s.originals m }
  | .episode m => { s with episodes := upsert EpisodeMemory.id s.episodes m }
  | .semantic m => { s with semantics := upsert SemanticMemory.id s.semantics m }
  | .theme m => { s with themes := upsert ThemeMemory.id s.themes m }

/-- The inner loop of InMemoryStore.search over one level's records: push
each match at the back, and break as soon as the accumulated result length
has reached the limit (the length test runs after every push). -/
def searchLevelFrom {α : Type} (content : α → String) (query : String)
    (limit : ℕ) (acc : List α) : List α → List α
  | [] => acc
  | m :: ms =>
    let acc' := if likeMatch (content m) query then acc ++ [m] else acc
    if limit ≤ acc'.length then acc'
    else searchLevelFrom content query limit acc' ms

/-- search over a single explicitly requested level (every engine call site
passes `{ level, limit }`, so only the one level's map is scanned). -/
def searchLevel {α : Type} (content : α → String) (query : String)
    (limit : ℕ) (xs : List α) : List α :=
  searchLevelFrom content query limit [] xs

/-- `search(query, { level: "theme", limit })`: a theme's primary text is
its description (it has neither content nor summary). -/
def searchThemes (s : InMemoryStore) (query : String) (limit : ℕ) :
    List ThemeMemory :=
  searchLevel ThemeMemory.description query limit s.themes

/-- `search(query, { level: "semantic", limit })`. -/
def searchSemantics (s : InMemoryStore) (query : String) (limit : ℕ) :
    List SemanticMemory :=
  searchLevel SemanticMemory.content query limit s.semantics

theorem searchLevelFrom_eq {α : Type} (content : α → String) (query : String)
    (limit : ℕ) :
    ∀ (xs acc : List α), acc.length < limit →
      searchLevelFrom content query limit acc xs
        = acc ++ (xs.filter fun m => likeMatch (content m) query).take
            (limit - acc.length) := by
  intro xs
  induction xs with
  | nil => intro acc _; simp [searchLevelFrom]
  | cons m ms ih =>
    intro acc hacc
    simp only [searchLevelFrom, List.filter_cons]
    cases hm : likeMatch (content m) query with
    | false =>
      have hlim : ¬ limit ≤ acc.length := by omega
      simp only [Bool.false_eq_true, if_false, hlim, ih acc hacc]
    | true =>
      simp only [if_true]
      by_cases hlim : limit ≤ (acc ++ [m]).length
      · rw [if_pos hlim]
        have h1 : limit - acc.length = 1 := by
          simp only [List.length_append, List.length_singleton] at hlim
          omega
        simp [h1]
      · rw [if_neg hlim]
        have hacc' : (acc ++ [m]).length < limit := by
          simp only [List.length_append, List.length_singleton] at hlim ⊢
          omega
        rw [ih (acc ++ [m]) hacc']
        have h1 : limit - acc.length = (limit - (acc ++ [m]).length) + 1 := by
          simp only [List.length_append, List.length_singleton]
          omega
        simp [h1]

theorem searchLevel_eq {α : Type} (content : α → String) (query : String)
    (limit : ℕ) (xs : List α) (h : 0 < limit) :
    searchLevel content query limit xs
      = (xs.filter fun m => likeMatch (content m) query).take limit := by
  have := searchLevelFrom_eq content query limit xs [] (by simpa using h)
  simpa [searchLevel] using this

end InMemoryStore

/-! ## MemoryEngine (core/engine.ts, top half), over the InMemoryStore
backend (`config.storage = "memory"`). -/

structure RememberOptions where
  type : Option SemanticType := none
  confidence : Option ℚ := none
  entities : Option (List String) := none

structure RememberIds where
  original : String
  episode : String
  semantic : String
  theme : String
  deriving DecidableEq

structure RememberResult where
  success : Bool
  ids : RememberIds
  deriving DecidableEq

structure RecallEvidence where
  themes : List (String × String)
  semantics : List (String × String)
  episodes : List (String × String)
  deriving DecidableEq

structure RecallMetrics where
  totalTokens : ℕ
  evidenceDensity : ℚ
  deriving DecidableEq

structure RecallResult where
  evidence : RecallEvidence
  metrics : RecallMetrics
  deriving DecidableEq

namespace MemoryEngine

/-- The Original record minted by remember. -/
def rememberOriginal (content : String) (now : ℕ) : OriginalMemory :=
  { id := "orig-" ++ toString now
    content := content
    timestamp := now
    sessionId := "default"
    speaker := .user }

/-- The Episode record minted by remember; the summary is
`content.substring(0, 100)` and the coherence is
`options.confidence || 0.5`. -/
def rememberEpisode (content : String) (options : RememberOptions) (now : ℕ) :
    EpisodeMemory :=
  { id := "ep-" ++ toString now
    summary := content.take 100
    originalIds := ["orig-" ++ toString now]
    startTime := now
    endTime := now
    boundaryType := .topic
    coherenceScore := jsOrQ (optQ options.confidence) (1/2) }

/-- The Semantic record minted by remember: type `options.type || "fact"`,
confidence `options.confidence || 0.5`, entities `options.entities || []`. -/
def rememberSemantic (content : String) (options : RememberOptions) (now : ℕ) :
    SemanticMemory :=
  { id := "sem-" ++ toString now
    content := content
    type := options.type.getD .fact
    confidence := jsOrQ (optQ options.confidence) (1/2)
    sourceEpisodes := ["ep-" ++ toString now]
    entityRefs := options.entities.getD [] }

/-- The loop of findOrCreateTheme over the semantic's entityRefs: the first
entity whose theme search (limit 1) hits an existing theme gets the
semantic's id pushed onto that theme, which is saved back in place. -/
def findOrCreateThemeGo (s : InMemoryStore) (sem : SemanticMemory) (now : ℕ) :
    List String → Option (ThemeMemory × InMemoryStore)
  | [] => none
  | entity :: rest =>
    match InMemoryStore.searchThemes s entity 1 with
    | t :: _ =>
      let t' := { t with semanticIds := t.semanticIds ++ [sem.id]
                         updatedAt := now }
      some (t', s.save (.theme t'))
    | [] => findOrCreateThemeGo s sem now rest

/-- findOrCreateTheme: reuse the first theme matching one of the entities,
else mint a fresh theme named after the first entity
(`semantic.entityRefs[0] || "Theme-" + Date.now()`; an out-of-range index
and the empty string are both falsy). The fresh theme is returned unsaved
(remember saves it). -/
def findOrCreateTheme (s : InMemoryStore) (sem : SemanticMemory) (now : ℕ) :
    ThemeMemory × InMemoryStore :=
  match findOrCreateThemeGo s sem now sem.entityRefs with
  | some r => r
  | none =>
    let themeName :=
      match sem.entityRefs with
      | [] => "Theme-" ++ toString now
      | e :: _ => jsOrStr e ("Theme-" ++ toString now)
    ({ id := "theme-" ++ toString now
       name := themeName
       description := "Theme for " ++ themeName
       semanticIds := [sem.id]
       coherenceScore := sem.confidence
       createdAt := now
       updatedAt := now }, s)

/-- remember: mint the Original, Episode and Semantic, find or create the
Theme, then save all four (the theme save inside findOrCreateTheme happens
first, then remember's own four saves run in order). -/
def remember (s : InMemoryStore) (content : String) (options : RememberOptions)
    (now : ℕ) : InMemoryStore × RememberResult :=
  let original := rememberOriginal content now
  let episode := rememberEpisode content options now
  let semantic := rememberSemantic content options now
  let tr := findOrCreateTheme s semantic now
  let s2 := ((((tr.2.save (.original original)).save
      (.episode episode)).save (.semantic semantic)).save (.theme tr.1))
  (s2,
    { success := true
      ids := { original := original.id, episode := episode.id
               semantic := semantic.id, theme := tr.1.id } })

/-- `Math.ceil(text.length / 4)`. -/
def estimateTokens (text : String) : ℕ := (text.length + 3) / 4

/-- recall: search semantics (limit 10); for each hit, search themes with
the semantic's whole content (limit 1) and collect the ids through a Set;
collect episode ids from sourceEpisodes; fetch both by id and assemble the
evidence and token metrics. -/
def «recall» (s : InMemoryStore) (query : String) : RecallResult :=
  let semantics := InMemoryStore.searchSemantics s query 10
  let themeIds : List String :=
    semantics.foldl
      (fun acc sem =>
        (InMemoryStore.searchThemes s sem.content 1).foldl
          (fun acc2 t => if t.id ∈ acc2 then acc2 else acc2 ++ [t.id]) acc)
      []
  let themes : List ThemeMemory :=
    themeIds.filterMap fun i => s.themes.find? fun t => t.id = i
  let episodeIds : List String :=
    semantics.foldl
      (fun acc sem =>
        sem.sourceEpisodes.foldl
          (fun acc2 e => if e ∈ acc2 then acc2 else acc2 ++ [e]) acc)
      []
  let episodes : List EpisodeMemory :=
    episodeIds.filterMap fun i => s.episodes.find? fun e => e.id = i
  let totalTokens := estimateTokens
    (String.intercalate " " (themes.map ThemeMemory.name)
      ++ String.intercalate " " (semantics.map SemanticMemory.content)
      ++ String.intercalate " " (episodes.map EpisodeMemory.summary))
  { evidence :=
      { themes := themes.map fun t => (t.id, t.name)
        semantics := semantics.map fun m => (m.id, m.content)
        episodes := episodes.map fun e => (e.id, e.summary) }
    metrics :=
      { totalTokens := totalTokens
        evidenceDensity := (semantics.length : ℚ) / max 1 ((totalTokens : ℚ) / 100) } }

end MemoryEngine

/-! ## The better-sqlite3 store (store/sqlite-store.ts)

The `memories` table plus the three join tables, each modelled as a list of
rows in insertion order. The JSON metadata column is modelled as a record of
optional fields: a field absent from the record corresponds to a key that
JSON.stringify omitted, and reading it yields undefined (falsy). -/

structure Metadata where
  timestamp : Option ℕ := none
  sessionId : Option String := none
  speaker : Option Speaker := none
  metadata : Option OrigMeta := none
  type : Option SemanticType := none
  confidence : Option ℚ := none
  entityRefs : Option (List String) := none
  validityPeriod : Option ValidityPeriod := none
  name : Option String := none
  coherenceScore : Option ℚ := none
  parentTheme : Option String := none
  childThemes : Option (List String) := none
  boundaryType : Option BoundaryType := none
  startTime : Option ℕ := none
  endTime : Option ℕ := none
  deriving DecidableEq

structure MemoryRow where
  id : String
  level : MemoryLevel
  content : String
  embedding : Option (List ℚ) := none
  metadata : Metadata
  created_at : ℕ
  updated_at : ℕ
  access_count : ℕ
  last_accessed : ℕ
  retention_score : ℚ
  deriving DecidableEq

/-- One row of theme_relations / episode_sources / semantic_sources: all
three join tables share the shape (id, parent id, child id, created_at). -/
structure JoinRow where
  id : String
  parentId : String
  childId : String
  created_at : ℕ
  deriving DecidableEq

structure SQLiteDB where
  memories : List MemoryRow := []
  theme_relations : List JoinRow := []
  episode_sources : List JoinRow := []
  semantic_sources : List JoinRow := []
  deriving DecidableEq

namespace SQLiteMemoryStore

/-- extractMetadata: one `if (field in memory) meta.field = ...` per field;
each variant owns exactly the fields written for it. -/
def extractMetadata : AnyMemory → Metadata
  | .original m =>
    { timestamp := some m.timestamp
      sessionId := some m.sessionId
      speaker := some m.speaker
      metadata := m.metadata }
  | .episode e =>
    { coherenceScore := some e.coherenceScore
      boundaryType := some e.boundaryType
      startTime := some e.startTime
      endTime := some e.endTime }
  | .semantic s =>
    { type := some s.type
      confidence := some s.confidence
      entityRefs := some s.entityRefs
      validityPeriod := s.validityPeriod }
  | .theme t =>
    { name := some t.name
      coherenceScore := some t.coherenceScore
      parentTheme := t.parentTheme
      childThemes := t.childThemes }

/-- saveThemeRelations: DELETE FROM theme_relations WHERE theme_id = ?, then
one INSERT per semanticId, in list order. -/
def saveThemeRelations (db : SQLiteDB) (t : ThemeMemory) (now : ℕ) : SQLiteDB :=
  { db with theme_relations :=
      db.theme_relations.filter (fun r => !(r.parentId = t.id : Bool))
        ++ t.semanticIds.map fun sid =>
            { id := "tr-" ++ t.id ++ "-" ++ sid
              parentId := t.id, childId := sid, created_at := now } }

/-- saveSemanticSources: replace-semantics on semantic_sources. -/
def saveSemanticSources (db : SQLiteDB) (s : SemanticMemory) (now : ℕ) :
    SQLiteDB :=
  { db with semantic_sources :=
      db.semantic_sources.filter (fun r => !(r.parentId = s.id : Bool))
        ++ s.sourceEpisodes.map fun eid =>
            { id := "ss-" ++ s.id ++ "-" ++ eid
              parentId := s.id, childId := eid, created_at := now } }

/-- saveEpisodeSources: replace-semantics on episode_sources. -/
def saveEpisodeSources (db : SQLiteDB) (e : EpisodeMemory) (now : ℕ) :
    SQLiteDB :=
  { db with episode_sources :=
      db.episode_sources.filter (fun r => !(r.parentId = e.id : Bool))
        ++ e.originalIds.map fun oid =>
            { id := "es-" ++ e.id ++ "-" ++ oid
              parentId := e.id, childId := oid, created_at := now } }

/-- save: INSERT OR REPLACE the memories row, writing created_at
`(memory as any).createdAt || now`, updated_at `now`, access_count 0,
last_accessed `now` and retention_score 1.0, then rewrite the join rows of
the record's own id-list attribute. -/
def save (db : SQLiteDB) (m : AnyMemory) (now : ℕ) : SQLiteDB :=
  let row : MemoryRow :=
    { id := m.id
      level := getLevel m
      content := extractContent m
      metadata := extractMetadata m
      created_at := jsOrNat (memCreatedAtNat m) now
      updated_at := now
      access_count := 0
      last_accessed := now
      retention_score := 1 }
  let db1 := { db with memories := upsert MemoryRow.id db.memories row }
  match m with
  | .theme t => saveThemeRelations db1 t now
  | .semantic s => saveSemanticSources db1 s now
  | .episode e => saveEpisodeSources db1 e now
  | .original _ => db1

/-- SELECT original_id FROM episode_sources WHERE episode_id = ?. -/
def getEpisodeSourceIds (db : SQLiteDB) (episodeId : String) : List String :=
  (db.episode_sources.filter fun r => r.parentId = episodeId).map JoinRow.childId

/-- SELECT episode_id FROM semantic_sources WHERE semantic_id = ?. -/
def getSemanticSourceIds (db : SQLiteDB) (semanticId : String) : List String :=
  (db.semantic_sources.filter fun r => r.parentId = semanticId).map JoinRow.childId

/-- SELECT semantic_id FROM theme_relations WHERE theme_id = ?. -/
def getThemeSemanticIds (db : SQLiteDB) (themeId : String) : List String :=
  (db.theme_relations.filter fun r => r.parentId = themeId).map JoinRow.childId

/-- rowToMemory: rebuild the typed record from a row, with JS falsy
fallbacks on every metadata read, and the id-list attributes re-read from
the join tables. `conflictingWith` is never written by extractMetadata, so
it always reads back undefined. -/
def rowToMemory (db : SQLiteDB) (row : MemoryRow) : AnyMemory :=
  match row.level with
  | .original =>
    .original
      { id := row.id
        content := row.content
        timestamp := jsOrNat (optNat row.metadata.timestamp) row.created_at
        sessionId := jsOrStr (optStr row.metadata.sessionId) "default"
        speaker := row.metadata.speaker.getD .user
        metadata := row.metadata.metadata
        createdAtOpt := some row.created_at
        updatedAtOpt := some row.updated_at }
  | .episode =>
    .episode
      { id := row.id
        summary := row.content
        originalIds := getEpisodeSourceIds db row.id
        startTime := jsOrNat (optNat row.metadata.startTime) row.created_at
        endTime := jsOrNat (optNat row.metadata.endTime) row.created_at
        boundaryType := row.metadata.boundaryType.getD .topic
        coherenceScore := jsOrQ (optQ row.metadata.coherenceScore) (1/2)
        createdAtOpt := some row.created_at
        updatedAtOpt := some row.updated_at }
  | .semantic =>
    .semantic
      { id := row.id
        content := row.content
        type := row.metadata.type.getD .fact
        confidence := jsOrQ (optQ row.metadata.confidence) (1/2)
        sourceEpisodes := getSemanticSourceIds db row.id
        entityRefs := row.metadata.entityRefs.getD []
        validityPeriod := row.metadata.validityPeriod
        conflictingWith := none
        createdAtOpt := some row.created_at
        updatedAtOpt := some row.updated_at }
  | .theme =>
    .theme
      { id := row.id
        name := jsOrStr (optStr row.metadata.name) row.id
        description := row.content
        semanticIds := getThemeSemanticIds db row.id
        coherenceScore := jsOrQ (optQ row.metadata.coherenceScore) (1/2)
        parentTheme := row.metadata.parentTheme
        childThemes := row.metadata.childThemes
        createdAt := row.created_at
        updatedAt := row.updated_at }

/-- UPDATE memories SET access_count = access_count + 1, last_accessed = ?
WHERE id = ?. -/
def updateAccessCount (db : SQLiteDB) (id : String) (now : ℕ) : SQLiteDB :=
  { db with memories :=
      db.memories.map fun r =>
        if r.id = id
        then { r with access_count := r.access_count + 1, last_accessed := now }
        else r }

/-- SELECT * FROM memories WHERE id = ? AND level = ? (first row). -/
def lookupMem (rows : List MemoryRow) (id : String) (level : MemoryLevel) :
    Option MemoryRow :=
  rows.find? fun r => r.id = id ∧ r.level = level

/-- get: fetch the row, bump its access counter as a side effect, and
return the rebuilt record (from the row as selected, i.e. pre-bump). -/
def get (db : SQLiteDB) (id : String) (level : MemoryLevel) (now : ℕ) :
    SQLiteDB × Option AnyMemory :=
  match lookupMem db.memories id level with
  | none => (db, none)
  | some row => (updateAccessCount db id now, some (rowToMemory db row))

/-- Insertion sort used to model the SQL ORDER BY clauses (SQLite does not
promise a stable order among ties; any order consistent with the comparator
is a faithful model, and the claims below only use membership or
single-row databases). -/
def insertSorted {α : Type} (le : α → α → Bool) (x : α) : List α → List α
  | [] => [x]
  | y :: ys => if le x y then x :: y :: ys else y :: insertSorted le x ys

def orderBy {α : Type} (le : α → α → Bool) (xs : List α) : List α :=
  xs.foldr (insertSorted le) []

theorem mem_insertSorted {α : Type} (le : α → α → Bool) (x a : α) :
    ∀ xs : List α, a ∈ insertSorted le x xs ↔ a = x ∨ a ∈ xs := by
  intro xs
  induction xs with
  | nil => simp [insertSorted]
  | cons y ys ih =>
    by_cases h : le x y
    · simp [insertSorted, h]
    · simp only [insertSorted, if_neg h, List.mem_cons, ih]
      tauto

theorem mem_orderBy {α : Type} (le : α → α → Bool) (a : α) :
    ∀ xs : List α, a ∈ orderBy le xs ↔ a ∈ xs := by
  intro xs
  induction xs with
  | nil => simp [orderBy]
  | cons y ys ih =>
    simp only [orderBy, List.foldr_cons, mem_insertSorted, List.mem_cons]
    rw [show List.foldr (insertSorted le) [] ys = orderBy le ys from rfl, ih]

/-- ORDER BY retention_score DESC, access_count DESC, created_at DESC. -/
def searchOrder (a b : MemoryRow) : Bool :=
  decide (b.retention_score < a.retention_score
    ∨ (b.retention_score = a.retention_score
        ∧ (b.access_count < a.access_count
            ∨ (b.access_count = a.access_count ∧ b.created_at ≤ a.created_at))))

/-- search: WHERE content LIKE '%q%' (AND level = ?), ordered, then
LIMIT / OFFSET; the rows are rebuilt through rowToMemory. -/
def search (db : SQLiteDB) (query : String) (level : Option MemoryLevel)
    (limit : ℕ) (offset : ℕ) : List AnyMemory :=
  let rows := db.memories.filter fun r =>
    likeMatch r.content query
      && match level with
         | some l => decide (r.level = l)
         | none => true
  (((orderBy searchOrder rows).drop offset).take limit).map (rowToMemory db)

/-- ORDER BY retention_score DESC, access_count DESC (searchByKeywords). -/
def keywordOrder (a b : MemoryRow) : Bool :=
  decide (b.retention_score < a.retention_score
    ∨ (b.retention_score = a.retention_score
        ∧ b.access_count ≤ a.access_count))

/-- The WHERE clause built by searchByKeywords. The keyword conditions are
joined with OR and the level test is appended with AND; since SQL AND binds
tighter than OR, the level test only guards the final keyword:
`c1 OR c2 OR ... OR (cn AND level = ?)`. -/
def keywordWhere (keywords : List String) (level : Option MemoryLevel)
    (r : MemoryRow) : Bool :=
  match level with
  | none => keywords.any fun k => likeMatch r.content k
  | some l =>
    (keywords.dropLast.any fun k => likeMatch r.content k)
      || (likeMatch r.content (keywords.getLastD "") && decide (r.level = l))

/-- searchByKeywords: empty keyword list short-circuits to []; otherwise
filter by the OR/AND clause above, order, and LIMIT. -/
def searchByKeywords (db : SQLiteDB) (keywords : List String)
    (level : Option MemoryLevel) (limit : ℕ) : List AnyMemory :=
  if keywords.isEmpty then []
  else
    ((orderBy keywordOrder
        (db.memories.filter (keywordWhere keywords level))).take limit).map
      (rowToMemory db)

/-- DELETE FROM memories WHERE id = ?. The schema declares ON DELETE
CASCADE on the join tables, but the store never switches the foreign_keys
pragma on, so better-sqlite3 leaves the join rows in place. -/
def delete (db : SQLiteDB) (id : String) : SQLiteDB :=
  { db with memories := db.memories.filter fun r => !(r.id = id : Bool) }

end SQLiteMemoryStore

/-! ## The sql.js store (store/sqljs-store.ts)

A single memories table with the same columns; there are no join tables, so
the id-list attributes cannot be reconstructed by its rowToMemory. -/

structure SqlJsDB where
  memories : List MemoryRow := []
  deriving DecidableEq

namespace SqlJsMemoryStore

/-- The sql.js extractMetadata writes only timestamp, sessionId, speaker,
type, confidence, entityRefs and name. -/
def extractMetadata : AnyMemory → Metadata
  | .original m =>
    { timestamp := some m.timestamp
      sessionId := some m.sessionId
      speaker := some m.speaker }
  | .episode _ => {}
  | .semantic s =>
    { type := some s.type
      confidence := some s.confidence
      entityRefs := some s.entityRefs }
  | .theme t => { name := some t.name }

/-- save: INSERT OR REPLACE with created_at = updated_at = last_accessed =
now, access_count 0 and retention_score 1.0 (this store never consults
`memory.createdAt`). -/
def save (db : SqlJsDB) (m : AnyMemory) (now : ℕ) : SqlJsDB :=
  let row : MemoryRow :=
    { id := m.id
      level := getLevel m
      content := extractContent m
      metadata := extractMetadata m
      created_at := now
      updated_at := now
      access_count := 0
      last_accessed := now
      retention_score := 1 }
  { db with memories := upsert MemoryRow.id db.memories row }

/-- The sql.js rowToMemory. A semantic reads back `sourceEpisodes: []` and
a theme `semanticIds: []` (hard-coded empty lists); the switch has no
episode case, and its default branch returns a bare `{ id, content }`
object, represented here as an original-shaped record whose remaining
fields are the zero values (the source object simply lacks them). -/
def rowToMemory (row : MemoryRow) : AnyMemory :=
  match row.level with
  | .original =>
    .original
      { id := row.id
        content := row.content
        timestamp := jsOrNat (optNat row.metadata.timestamp) row.created_at
        sessionId := jsOrStr (optStr row.metadata.sessionId) "default"
        speaker := row.metadata.speaker.getD .user }
  | .semantic =>
    .semantic
      { id := row.id
        content := row.content
        type := row.metadata.type.getD .fact
        confidence := jsOrQ (optQ row.metadata.confidence) (1/2)
        sourceEpisodes := []
        entityRefs := row.metadata.entityRefs.getD [] }
  | .theme =>
    .theme
      { id := row.id
        name := jsOrStr (optStr row.metadata.name) row.id
        description := row.content
        semanticIds := []
        coherenceScore := 1/2
        createdAt := row.created_at
        updatedAt := row.created_at }
  | .episode =>
    .original
      { id := row.id
        content := row.content
        timestamp := 0
        sessionId := ""
        speaker := .user }

/-- get: SELECT by id and level and rebuild the record; unlike the
better-sqlite3 store there is no access-count update, and the database is
returned unchanged. -/
def get (db : SqlJsDB) (id : String) (level : MemoryLevel) :
    SqlJsDB × Option AnyMemory :=
  match db.memories.find? (fun r => r.id = id ∧ r.level = level) with
  | none => (db, none)
  | some row => (db, some (rowToMemory row))

end SqlJsMemoryStore

/-! ## ForgettingMechanism (dynamics/forgetting.ts)

Math.exp and Math.log10 are modelled over the reals, so these definitions
are noncomputable; the branch tests on real scores use classical
decidability. -/

namespace ForgettingMechanism

noncomputable def FORGETTING_RATE : ℝ := 3/10

noncomputable def MIN_RETENTION : ℝ := 1/10

noncomputable def ARCHIVE_THRESHOLD : ℝ := 3/10

noncomputable def DELETE_THRESHOLD : ℝ := 1/10

/-- getAccessCount, as shipped: the body is
`// This would query the store for access count`
`// For now, return 0 as placeholder`
`return 0;` — a stub that ignores the store entirely. -/
def getAccessCount (_id : String) : ℕ := 0

/-- `(memory as any).createdAt || (memory as any).timestamp || currentTime`. -/
def resolveCreatedAt (memory : AnyMemory) (currentTime : ℕ) : ℕ :=
  jsOrNat (memCreatedAtNat memory) (jsOrNat (memTimestampNat memory) currentTime)

/-- calculateRetention: the Ebbinghaus curve R = exp(-ageInDays/stability)
with stability = 1 + accessCount * 0.5, clamped into [0.1, 1] via
`Math.max(0.1, Math.min(1, retention))`. -/
noncomputable def calculateRetention (memory : AnyMemory) (currentTime : ℕ) : ℝ :=
  let createdAt := resolveCreatedAt memory currentTime
  let ageInDays : ℝ := ((currentTime : ℝ) - (createdAt : ℝ)) / (1000 * 60 * 60 * 24)
  let accessCount := getAccessCount memory.id
  let stability : ℝ := 1 + (accessCount : ℝ) * (1/2)
  let retention := Real.exp (-ageInDays / stability)
  max MIN_RETENTION (min 1 retention)

/-- The table `typeWeights` of calculateImportance; every declared fact type
is present, so the `|| 0.2` fallback never fires on a typed record. -/
def typeWeight : SemanticType → ℚ
  | .fact => 3/10
  | .preference => 1/4
  | .goal => 7/20
  | .constraint => 3/10
  | .event => 1/5

/-- calculateImportance: base 0.5, plus confidence * 0.2 and the type weight
(semantics), plus min(0.2, #entityRefs * 0.05) (semantics), plus
min(0.15, #semanticIds * 0.03) (themes), capped at 1. All the amounts are
rational, so this stays computable. -/
def calculateImportance : AnyMemory → ℚ
  | .semantic s =>
    min 1 ((1/2) + s.confidence * (1/5) + typeWeight s.type
      + min (1/5) ((s.entityRefs.length : ℚ) * (1/20)))
  | .theme t =>
    min 1 ((1/2) + min (3/20) ((t.semanticIds.length : ℚ) * (3/100)))
  | _ => min 1 (1/2)

structure MemoryScore where
  id : String
  retentionScore : ℝ
  importanceScore : ℚ
  accessFrequency : ℕ
  recency : ℤ
  age : ℝ

/-- getMemoryScores: score every record returned by
`store.search("", { limit: 10000 })`. -/
noncomputable def getMemoryScores (db : SQLiteDB) (currentTime : ℕ) :
    List MemoryScore :=
  (SQLiteMemoryStore.search db "" none 10000 0).map fun memory =>
    { id := memory.id
      retentionScore := calculateRetention memory currentTime
      importanceScore := calculateImportance memory
      accessFrequency := getAccessCount memory.id
      recency := (currentTime : ℤ) - (jsOrNat (memCreatedAtNat memory) currentTime : ℤ)
      age := ((currentTime : ℝ) - (jsOrNat (memCreatedAtNat memory) currentTime : ℝ))
        / (1000 * 60 * 60 * 24) }

structure ForgettingCounts where
  archived : ℕ
  deleted : ℕ
  retained : ℕ
  deriving DecidableEq

/-- updateRetentionScore, as shipped: the body is only the comments
`// This would update the retention_score column in SQLite` and
`// In a real implementation, we'd add a method to SQLiteMemoryStore` —
it performs no store update at all. -/
def updateRetentionScore (db : SQLiteDB) (_id : String) (_newScore : ℝ) :
    SQLiteDB :=
  db

open Classical in
/-- archiveLowValue: for each score, combined = retention * importance *
(1 + log10(1 + accessCount)/2); delete below DELETE_THRESHOLD, otherwise
call updateRetentionScore (halving) below the caller threshold, otherwise
retain. The scores are computed once, up front, from the initial store. -/
noncomputable def archiveLowValue (db : SQLiteDB) (threshold : ℝ) (now : ℕ) :
    ForgettingCounts × SQLiteDB :=
  (getMemoryScores db now).foldl
    (fun acc score =>
      let accessFactor := Real.logb 10 (1 + (score.accessFrequency : ℝ)) / 2
      let combinedScore :=
        score.retentionScore * (score.importanceScore : ℝ) * (1 + accessFactor)
      if combinedScore < DELETE_THRESHOLD then
        ({ acc.1 with deleted := acc.1.deleted + 1 },
          SQLiteMemoryStore.delete acc.2 score.id)
      else if combinedScore < threshold then
        ({ acc.1 with archived := acc.1.archived + 1 },
          updateRetentionScore acc.2 score.id (score.retentionScore * (1/2)))
      else
        ({ acc.1 with retained := acc.1.retained + 1 }, acc.2))
    (⟨0, 0, 0⟩, db)

end ForgettingMechanism

/-! ## ConflictDetector (dynamics/conflict.ts) -/

inductive Severity
  | low
  | medium
  | high
  deriving DecidableEq

inductive ConflictType
  | factual
  | temporal
  | preference
  deriving DecidableEq

/-- A detected conflict. The `reason` string of the source (which embeds
`similarity.toFixed(2)` float formatting) is informational only and is not
modelled. -/
structure Conflict where
  id : String
  type : ConflictType
  memory1 : SemanticMemory
  memory2 : SemanticMemory
  severity : Severity
  deriving DecidableEq

namespace ConflictDetector

def SIMILARITY_THRESHOLD : ℚ := 17/20

def CONFIDENCE_DIFF_THRESHOLD : ℚ := 1/10

/-- `mem.confidence || 0.5`. -/
def confOrHalf (m : SemanticMemory) : ℚ := jsOrQ m.confidence (1/2)

/-- calculateSeverity: a confidence gap above 0.1 is low, above 0.05
medium, anything else (including exactly 0.05) high. -/
def calculateSeverity (mem1 mem2 : SemanticMemory) : Severity :=
  let confDiff := |confOrHalf mem1 - confOrHalf mem2|
  if CONFIDENCE_DIFF_THRESHOLD < confDiff then .low
  else if (1/20 : ℚ) < confDiff then .medium
  else .high

/-- `content.toLowerCase().trim()`. -/
def lowerTrim (s : String) : List Char :=
  ((lowerChars s).dropWhile Char.isWhitespace).reverse.dropWhile
    Char.isWhitespace |>.reverse

/-- isFactualConflict: same trimmed lower-cased content is never a
conflict; otherwise a shared entity reference makes one. -/
def isFactualConflict (mem1 mem2 : SemanticMemory) : Bool :=
  let content1 := lowerTrim mem1.content
  let content2 := lowerTrim mem2.content
  if content1 = content2 then false
  else
    (mem1.entityRefs.any fun e => decide (e ∈ mem2.entityRefs))
      && !(content1 = content2 : Bool)

/-- The negation marker list of isPreferenceConflict. -/
def negationPatterns : List String := ["not", "don\x27t", "doesn\x27t", "never", "no"]

def hasNegation (content : String) : Bool :=
  negationPatterns.any fun n => containsSub (lowerChars content) n.data

/-- isPreferenceConflict: exactly one side carries a negation marker. -/
def isPreferenceConflict (mem1 mem2 : SemanticMemory) : Bool :=
  hasNegation mem1.content != hasNegation mem2.content

/-- `period.end || Infinity`: an absent or zero end is +infinity. -/
def endOrInf (p : ValidityPeriod) : Option ℕ :=
  match p.endOpt with
  | some e => if e = 0 then none else some e
  | none => none

/-- `end < start` where end may be +infinity (none). -/
def endBefore (e : Option ℕ) (start : ℕ) : Bool :=
  match e with
  | some v => decide (v < start)
  | none => false

/-- hasTemporalConflict: both validity periods present and numerically
overlapping. -/
def hasTemporalConflict (mem1 mem2 : SemanticMemory) : Bool :=
  match mem1.validityPeriod, mem2.validityPeriod with
  | some period1, some period2 =>
    !(endBefore (endOrInf period1) period2.start
        || endBefore (endOrInf period2) period1.start)
  | _, _ => false

/-- analyzeConflict: factual check first (both facts), then preference
(both preferences, fixed medium severity), then temporal (fixed low
severity); the conflict id's `Date.now()`/`Math.random()` suffix is an
explicit `rand` parameter here. -/
def analyzeConflict (newMemory existingMemory : SemanticMemory)
    (rand : String) : Option Conflict :=
  if newMemory.type = .fact ∧ existingMemory.type = .fact
      ∧ isFactualConflict newMemory existingMemory then
    some
      { id := "conflict-" ++ rand
        type := .factual
        memory1 := newMemory
        memory2 := existingMemory
        severity := calculateSeverity newMemory existingMemory }
  else if newMemory.type = .preference ∧ existingMemory.type = .preference
      ∧ isPreferenceConflict newMemory existingMemory then
    some
      { id := "conflict-" ++ rand
        type := .preference
        memory1 := newMemory
        memory2 := existingMemory
        severity := .medium }
  else if hasTemporalConflict newMemory existingMemory then
    some
      { id := "conflict-" ++ rand
        type := .temporal
        memory1 := newMemory
        memory2 := existingMemory
        severity := .low }
  else
    none

end ConflictDetector

/-! ## KnowledgeGraph (reasoning/knowledge-graph.ts)

The entity and relation maps are lists in insertion order; the string
unions EntityType and RelationType are modelled as strings. -/

structure Entity where
  id : String
  name : String
  type : String
  aliases : List String
  firstSeen : ℕ
  lastSeen : ℕ
  mentionCount : ℕ
  deriving DecidableEq

structure Relation where
  id : String
  source : String
  target : String
  type : String
  weight : ℚ
  evidence : List String
  createdAt : ℕ
  deriving DecidableEq

structure GraphPath where
  nodes : List Entity
  edges : List Relation
  totalWeight : ℚ
  deriving DecidableEq

structure KnowledgeGraph where
  entities : List Entity := []
  relations : List Relation := []
  entityNameIndex : List (String × String) := []
  deriving DecidableEq

namespace KnowledgeGraph

/-- `name.toLowerCase().trim()`, the key of entityNameIndex. -/
def normalizeName (name : String) : String :=
  String.mk (((lowerChars name).dropWhile Char.isWhitespace).reverse.dropWhile
    Char.isWhitespace |>.reverse)

/-- getEntity: look the normalized name up in the index, then fetch the
entity map (`id ? this.entities.get(id) || null : null`; an empty-string id
would be falsy). -/
def getEntity (g : KnowledgeGraph) (name : String) : Option Entity :=
  match g.entityNameIndex.find? fun p => decide (p.1 = normalizeName name) with
  | none => none
  | some p =>
    if p.2 = "" then none
    else g.entities.find? fun e => decide (e.id = p.2)

/-- getEntityRelations: all relations touching the entity, in map insertion
order. -/
def getEntityRelations (g : KnowledgeGraph) (entityId : String) :
    List Relation :=
  g.relations.filter fun r =>
    decide (r.source = entityId ∨ r.target = entityId)

/-- `relation.source === current ? relation.target : relation.source`. -/
def otherEnd (r : Relation) (current : String) : String :=
  if r.source = current then r.target else r.source

/-- One BFS queue entry: the frontier node, the node-id path from the
source, and the edges traversed. -/
structure QueueEntry where
  entityId : String
  path : List String
  edges : List Relation
  deriving DecidableEq

/-- `this.entities.get(id)!` used when materializing the result nodes. -/
def entityByIdD (g : KnowledgeGraph) (id : String) : Entity :=
  (g.entities.find? fun e => decide (e.id = id)).getD
    ⟨"", "", "concept", [], 0, 0, 0⟩

/-- `edges.reduce((sum, e) => sum + e.weight, 0)`. -/
def pathWeight (edges : List Relation) : ℚ :=
  edges.foldl (fun sum e => sum + e.weight) 0

/-- The BFS while-loop of findPath, with an explicit fuel argument (the
loop provably terminates; findPath passes enough fuel for the exhaustion
branch to be unreachable, as the completeness theorem shows). Per
iteration: pop; return if the target is reached; drop the entry if its
node path exceeds maxHops + 1 nodes or its node was already expanded;
otherwise mark it visited and push one child per incident relation whose
far end is not yet visited. -/
def bfsLoop (g : KnowledgeGraph) (targetId : String) (maxHops : ℕ) :
    ℕ → List QueueEntry → List String → Option GraphPath
  | 0, _, _ => none
  | _ + 1, [], _ => none
  | fuel + 1, current :: queue, visited =>
    if current.entityId = targetId then
      some
        { nodes := current.path.map (entityByIdD g)
          edges := current.edges
          totalWeight := pathWeight current.edges }
    else if maxHops < current.path.length then
      bfsLoop g targetId maxHops fuel queue visited
    else if current.entityId ∈ visited then
      bfsLoop g targetId maxHops fuel queue visited
    else
      let visited' := current.entityId :: visited
      let newEntries :=
        (getEntityRelations g current.entityId).filterMap fun r =>
          let nextEntityId := otherEnd r current.entityId
          if nextEntityId ∈ visited' then none
          else
            some
              { entityId := nextEntityId
                path := current.path ++ [nextEntityId]
                edges := current.edges ++ [r] }
      bfsLoop g targetId maxHops fuel (queue ++ newEntries) visited'

/-- All node ids the BFS can ever enqueue: the entity ids and the relation
endpoints. -/
def graphIds (g : KnowledgeGraph) : List String :=
  g.entities.map Entity.id ++ g.relations.flatMap fun r => [r.source, r.target]

/-- Fuel that provably outlasts the loop (see the measure argument in the
completeness proof). -/
def bfsFuel (g : KnowledgeGraph) : ℕ :=
  (g.relations.length + 1) * (graphIds g).length + 2

/-- findPath: resolve both entity names (null if either is unknown) and run
the BFS from the source singleton queue. -/
def findPath (g : KnowledgeGraph) (sourceName targetName : String)
    (maxHops : ℕ) : Option GraphPath :=
  match getEntity g sourceName, getEntity g targetName with
  | some source, some target =>
    bfsLoop g target.id maxHops (bfsFuel g)
      [{ entityId := source.id, path := [source.id], edges := [] }] []
  | _, _ => none

/-- A chain of relations walkable from `a` to `b` in the undirected view of
the graph: each step takes an edge incident to the current node over to its
other end, exactly as the BFS does. -/
inductive RelPath (g : KnowledgeGraph) : String → String → List Relation → Prop
  | nil (a : String) : RelPath g a a []
  | cons {a b : String} {r : Relation} {es : List Relation} :
      r ∈ g.relations → (r.source = a ∨ r.target = a) →
      RelPath g (otherEnd r a) b es → RelPath g a b (r :: es)

theorem RelPath.snoc {g : KnowledgeGraph} {r : Relation}
    (hr : r ∈ g.relations) :
    ∀ {a b : String} {es : List Relation}, RelPath g a b es →
      (r.source = b ∨ r.target = b) →
      RelPath g a (otherEnd r b) (es ++ [r]) := by
  intro a b es h
  induction h with
  | nil a => intro hinc; exact RelPath.cons hr hinc (RelPath.nil _)
  | cons hr2 hinc2 h2 ih => intro hinc; exact RelPath.cons hr2 hinc2 (ih hinc)

end KnowledgeGraph

/-! ## Claim-specific definitions: spec-side formulas and concrete fixtures -/

/-- The retention formula exactly as the specification words it: R =
exp(-ageInDays / stability) with stability = 1 + accessCount * 0.5, where
accessCount is the store-maintained access count (passed explicitly here),
clamped to [0.1, 1]. To be compared with
ForgettingMechanism.calculateRetention, whose access count comes from the
getAccessCount stub. -/
noncomputable def specCalculateRetention (memory : AnyMemory)
    (currentTime : ℕ) (accessCount : ℕ) : ℝ :=
  let ageInDays : ℝ :=
    ((currentTime : ℝ) - (ForgettingMechanism.resolveCreatedAt memory currentTime : ℝ))
      / (1000 * 60 * 60 * 24)
  let stability : ℝ := 1 + (accessCount : ℝ) * (1/2)
  max (1/10) (min 1 (Real.exp (-ageInDays / stability)))

/-- A semantic record created one day into the clock (createdAt as attached
by the sqlite store), used as the C2 failing input together with a
store-maintained access count of 2. -/
def memC2 : AnyMemory :=
  .semantic
    { id := "sem-c2"
      content := "the build is green"
      type := .fact
      confidence := 1/2
      sourceEpisodes := []
      entityRefs := []
      createdAtOpt := some 86400000
      updatedAtOpt := some 86400000 }

/-- One day after memC2's creation time. -/
def tC2 : ℕ := 172800000

/-- The C3 failing input: a semantic row of type goal, confidence 1 and
four entity references (importance exactly 1), created at day one. -/
def rowC3 : MemoryRow :=
  { id := "sem-c3"
    level := .semantic
    content := "finish the quarterly report"
    metadata :=
      { type := some .goal
        confidence := some 1
        entityRefs := some ["report", "quarter", "deadline", "team"] }
    created_at := 86400000
    updated_at := 86400000
    access_count := 0
    last_accessed := 86400000
    retention_score := 1 }

def dbC3 : SQLiteDB := { memories := [rowC3] }

/-- Three days after rowC3's creation: retention clamps to exactly 0.1, so
the combined score 0.1 falls into the archive branch. -/
def nowC3 : ℕ := 345600000

/-- Two conflicting fact-type semantics with confidences 0.9 and 0.95
sharing the entity X: the C4 boundary instance. -/
def semC4a : SemanticMemory :=
  { id := "sem-c4a"
    content := "X ships on Monday"
    type := .fact
    confidence := 9/10
    sourceEpisodes := []
    entityRefs := ["X"] }

def semC4b : SemanticMemory :=
  { id := "sem-c4b"
    content := "X ships on Friday"
    type := .fact
    confidence := 19/20
    sourceEpisodes := []
    entityRefs := ["X"] }

/-- A second pair with confidence gap 0.07, used to exercise the medium
bucket. -/
def semC4c : SemanticMemory :=
  { id := "sem-c4c"
    content := "Y is fast"
    type := .fact
    confidence := 9/10
    sourceEpisodes := []
    entityRefs := ["Y"] }

def semC4d : SemanticMemory :=
  { id := "sem-c4d"
    content := "Y is slow"
    type := .fact
    confidence := 83/100
    sourceEpisodes := []
    entityRefs := ["Y"] }

/-- A stored semantic row for the C5 counterexample on the sql.js store. -/
def rowC5 : MemoryRow :=
  { id := "sem-c5"
    level := .semantic
    content := "User prefers dark mode"
    metadata :=
      { type := some .preference
        confidence := some 1
        entityRefs := some ["User"] }
    created_at := 10
    updated_at := 10
    access_count := 0
    last_accessed := 10
    retention_score := 1 }

def dbC5 : SqlJsDB := { memories := [rowC5] }

/-- The C6 counterexample record: a semantic whose sourceEpisodes list is
nonempty. -/
def semC6 : SemanticMemory :=
  { id := "sem-rt"
    content := "User prefers dark mode"
    type := .preference
    confidence := 1
    sourceEpisodes := ["ep-1"]
    entityRefs := ["User"] }

/-- The C10 counterexample database: an original mentioning coffee and a
semantic mentioning tea. -/
def rowC10a : MemoryRow :=
  { id := "orig-10"
    level := .original
    content := "coffee time"
    metadata := { timestamp := some 1, sessionId := some "s", speaker := some .user }
    created_at := 1
    updated_at := 1
    access_count := 0
    last_accessed := 1
    retention_score := 1 }

def rowC10b : MemoryRow :=
  { id := "sem-10"
    level := .semantic
    content := "tea talk"
    metadata := { type := some .fact, confidence := some 1, entityRefs := some [] }
    created_at := 2
    updated_at := 2
    access_count := 0
    last_accessed := 2
    retention_score := 1 }

def dbC10 : SQLiteDB := { memories := [rowC10a, rowC10b] }

def dbC10b : SQLiteDB := { memories := [rowC10b] }

/-! ## Supporting lemmas -/

theorem find?_upsert_self {α : Type} (key : α → String) (rows : List α)
    (x : α) (idv : String) (hid : key x = idv) :
    (upsert key rows x).find? (fun r => decide (key r = idv)) = some x := by
  induction rows with
  | nil => simp [upsert, List.find?, hid]
  | cons y ys ih =>
    by_cases h : key y = key x
    · simp [upsert, h, List.find?, hid]
    · simp only [upsert, if_neg h]
      rw [List.find?_cons_of_neg _ (by simp [hid ▸ h])]
      exact ih

theorem getLevel_rowToMemory (db : SQLiteDB) (r : MemoryRow) :
    getLevel (SQLiteMemoryStore.rowToMemory db r) = r.level := by
  cases h : r.level <;> simp [SQLiteMemoryStore.rowToMemory, h, getLevel]

theorem find?_bump (l : List MemoryRow) (id : String) (level : MemoryLevel)
    (now : ℕ) (row : MemoryRow)
    (h : l.find? (fun r => decide (r.id = id ∧ r.level = level)) = some row) :
    (l.map fun r =>
        if r.id = id
        then { r with access_count := r.access_count + 1, last_accessed := now }
        else r).find? (fun r => decide (r.id = id ∧ r.level = level))
      = some { row with access_count := row.access_count + 1,
                        last_accessed := now } := by
  induction l with
  | nil => simp [List.find?] at h
  | cons x xs ih =>
    by_cases hx : x.id = id ∧ x.level = level
    · rw [List.find?_cons_of_pos _ (by simpa using hx)] at h
      obtain rfl : x = row := by simpa using h
      rw [List.map_cons, if_pos hx.1, List.find?_cons_of_pos]
      simpa using hx
    · rw [List.find?_cons_of_neg _ (by simpa using hx)] at h
      rw [List.map_cons, List.find?_cons_of_neg]
      · exact ih h
      · by_cases hid : x.id = id
        · have : ¬ x.level = level := fun hl => hx ⟨hid, hl⟩
          simp [hid, this]
        · simp [hid]

theorem mem_map_bump (l : List MemoryRow) (id : String) (now : ℕ)
    (r : MemoryRow) (hr : r ∈ l) (hid : r.id ≠ id) :
    r ∈ l.map fun x =>
      if x.id = id
      then { x with access_count := x.access_count + 1, last_accessed := now }
      else x := by
  have := List.mem_map_of_mem
    (f := fun x : MemoryRow =>
      if x.id = id
      then { x with access_count := x.access_count + 1, last_accessed := now }
      else x) hr
  simpa [if_neg hid] using this

/-! ## C9 -/

/-- C9: every save on the SQLite-backed stores (better-sqlite3 and sql.js
alike), including a re-save of an already stored id, rewrites the row for
that id with access_count = 0, last_accessed = now and retention_score =
1.0, discarding whatever access-tracking values the row held before. -/
theorem C9_save_resets_access_tracking (db : SQLiteDB) (db2 : SqlJsDB)
    (m : AnyMemory) (now : ℕ) :
    (((SQLiteMemoryStore.save db m now).memories.find?
          (fun r => decide (r.id = m.id))).map MemoryRow.access_count = some 0
      ∧ ((SQLiteMemoryStore.save db m now).memories.find?
          (fun r => decide (r.id = m.id))).map MemoryRow.last_accessed = some now
      ∧ ((SQLiteMemoryStore.save db m now).memories.find?
          (fun r => decide (r.id = m.id))).map MemoryRow.retention_score = some 1)
    ∧ (((SqlJsMemoryStore.save db2 m now).memories.find?
          (fun r => decide (r.id = m.id))).map MemoryRow.access_count = some 0
      ∧ ((SqlJsMemoryStore.save db2 m now).memories.find?
          (fun r => decide (r.id = m.id))).map MemoryRow.last_accessed = some now
      ∧ ((SqlJsMemoryStore.save db2 m now).memories.find?
          (fun r => decide (r.id = m.id))).map MemoryRow.retention_score = some 1) := by
  have h1 : (SQLiteMemoryStore.save db m now).memories
      = upsert MemoryRow.id db.memories
          { id := m.id
            level := getLevel m
            content := extractContent m
            metadata := SQLiteMemoryStore.extractMetadata m
            created_at := jsOrNat (memCreatedAtNat m) now
            updated_at := now
            access_count := 0
            last_accessed := now
            retention_score := 1 } := by
    cases m <;> rfl
  have h2 : (SqlJsMemoryStore.save db2 m now).memories
      = upsert MemoryRow.id db2.memories
          { id := m.id
            level := getLevel m
            content := extractContent m
            metadata := SqlJsMemoryStore.extractMetadata m
            created_at := now
            updated_at := now
            access_count := 0
            last_accessed := now
            retention_score := 1 } := rfl
  rw [h1, h2,
    find?_upsert_self MemoryRow.id db.memories _ m.id rfl,
    find?_upsert_self MemoryRow.id db2.memories _ m.id rfl]
  exact ⟨⟨rfl, rfl, rfl⟩, rfl, rfl, rfl⟩

/-! ## C10 -/

/-- C10 counterexample: with keywords ["coffee", "tea"] and requested level
semantic, searchByKeywords also returns the original-level row matching
"coffee", because the SQL level test only binds to the last keyword. -/
theorem C10_counterexample :
    (SQLiteMemoryStore.searchByKeywords dbC10 ["coffee", "tea"]
        (some .semantic) 10).map getLevel
      = [MemoryLevel.original, MemoryLevel.semantic]
    ∧ MemoryLevel.original ≠ MemoryLevel.semantic := by
  exact ⟨by decide, by decide⟩

/-- C10 amended: when exactly one keyword is supplied the level filter does
apply, and every returned record has the requested level (with several
keywords the SQL AND binds only the last keyword's LIKE condition, see the
counterexample). -/
theorem C10_single_keyword_level (db : SQLiteDB) (k : String)
    (l : MemoryLevel) (limit : ℕ) :
    ∀ m ∈ SQLiteMemoryStore.searchByKeywords db [k] (some l) limit,
      getLevel m = l := by
  intro m hm
  simp only [SQLiteMemoryStore.searchByKeywords, List.isEmpty_cons,
    Bool.false_eq_true, if_false, List.mem_map] at hm
  obtain ⟨r, hr, rfl⟩ := hm
  rw [getLevel_rowToMemory]
  have hr2 : r ∈ SQLiteMemoryStore.orderBy SQLiteMemoryStore.keywordOrder
      (db.memories.filter
        (SQLiteMemoryStore.keywordWhere [k] (some l))) :=
    List.take_subset _ _ hr
  rw [SQLiteMemoryStore.mem_orderBy] at hr2
  have hf := List.of_mem_filter hr2
  have hgl : ([k].getLastD "") = k := rfl
  simp only [SQLiteMemoryStore.keywordWhere, List.dropLast_single,
    List.any_nil, Bool.false_or, hgl,
    Bool.and_eq_true, decide_eq_true_eq] at hf
  exact hf.2

/-- C10 witness for the single-keyword theorem, at a concrete database. -/
theorem C10_witness :
    getLevel (SQLiteMemoryStore.rowToMemory dbC10b rowC10b)
      = MemoryLevel.semantic :=
  C10_single_keyword_level dbC10b "tea" .semantic 10
    (SQLiteMemoryStore.rowToMemory dbC10b rowC10b) (by decide)

/-! ## C4 -/

/-- C4 counterexample: for two conflicting fact-type semantics with
confidences 0.9 and 0.95 (gap exactly 0.05), analyzeConflict classifies the
severity as high, not medium. -/
theorem confOrHalf_of_ne (m : SemanticMemory) (h : m.confidence ≠ 0) :
    ConflictDetector.confOrHalf m = m.confidence := by
  rw [ConflictDetector.confOrHalf, jsOrQ, if_neg h]

theorem abs_diff_semC4ab :
    |semC4a.confidence - semC4b.confidence| = 1/20 := by
  have h : semC4a.confidence - semC4b.confidence = -(1/20) := by
    norm_num [semC4a, semC4b]
  rw [h, abs_neg, abs_of_nonneg]
  · norm_num

theorem calculateSeverity_semC4ab :
    ConflictDetector.calculateSeverity semC4a semC4b = Severity.high := by
  rw [ConflictDetector.calculateSeverity,
    confOrHalf_of_ne semC4a (by norm_num [semC4a]),
    confOrHalf_of_ne semC4b (by norm_num [semC4b]), abs_diff_semC4ab,
    if_neg (by rw [ConflictDetector.CONFIDENCE_DIFF_THRESHOLD]; norm_num),
    if_neg (by norm_num)]

theorem analyzeConflict_semC4ab :
    ConflictDetector.analyzeConflict semC4a semC4b "r"
      = some
          { id := "conflict-" ++ "r"
            type := .factual
            memory1 := semC4a
            memory2 := semC4b
            severity := Severity.high } := by
  rw [ConflictDetector.analyzeConflict, if_pos ⟨rfl, rfl, by decide⟩,
    calculateSeverity_semC4ab]

theorem C4_counterexample :
    (ConflictDetector.analyzeConflict semC4a semC4b "r").map Conflict.severity
      = some Severity.high
    ∧ Severity.high ≠ Severity.medium := by
  rw [analyzeConflict_semC4ab]
  exact ⟨rfl, by decide⟩


/-- C4 amended: the severity buckets of calculateSeverity are: gap > 0.1 low,
0.05 < gap ≤ 0.1 medium, gap ≤ 0.05 high (the boundary 0.05 itself falls in
the high bucket), and in particular the 0.9 / 0.95 fact pair analyzed by
analyzeConflict is classified high. -/
theorem C4_severity_buckets :
    (∀ m1 m2 : SemanticMemory,
        ConflictDetector.CONFIDENCE_DIFF_THRESHOLD
            < |ConflictDetector.confOrHalf m1 - ConflictDetector.confOrHalf m2| →
          ConflictDetector.calculateSeverity m1 m2 = .low)
    ∧ (∀ m1 m2 : SemanticMemory,
        (1/20 : ℚ) < |ConflictDetector.confOrHalf m1 - ConflictDetector.confOrHalf m2| →
        |ConflictDetector.confOrHalf m1 - ConflictDetector.confOrHalf m2| ≤ 1/10 →
          ConflictDetector.calculateSeverity m1 m2 = .medium)
    ∧ (∀ m1 m2 : SemanticMemory,
        |ConflictDetector.confOrHalf m1 - ConflictDetector.confOrHalf m2| ≤ 1/20 →
          ConflictDetector.calculateSeverity m1 m2 = .high)
    ∧ (ConflictDetector.analyzeConflict semC4a semC4b "r").map Conflict.severity
        = some Severity.high := by
  refine ⟨?_, ?_, ?_, by rw [analyzeConflict_semC4ab]; rfl⟩
  · intro m1 m2 h
    simp only [ConflictDetector.calculateSeverity, if_pos h]
  · intro m1 m2 h1 h2
    have hn : ¬ ConflictDetector.CONFIDENCE_DIFF_THRESHOLD
        < |ConflictDetector.confOrHalf m1 - ConflictDetector.confOrHalf m2| := by
      rw [ConflictDetector.CONFIDENCE_DIFF_THRESHOLD]
      exact not_lt.mpr h2
    simp only [ConflictDetector.calculateSeverity, if_neg hn, if_pos h1]
  · intro m1 m2 h
    have hn1 : ¬ ConflictDetector.CONFIDENCE_DIFF_THRESHOLD
        < |ConflictDetector.confOrHalf m1 - ConflictDetector.confOrHalf m2| := by
      rw [ConflictDetector.CONFIDENCE_DIFF_THRESHOLD]
      refine not_lt.mpr (h.trans (by norm_num))
    have hn2 : ¬ (1/20 : ℚ)
        < |ConflictDetector.confOrHalf m1 - ConflictDetector.confOrHalf m2| :=
      not_lt.mpr h
    simp only [ConflictDetector.calculateSeverity, if_neg hn1, if_neg hn2]

/-- C4 witness: a confidence gap of 0.07 lands in the medium bucket. -/
theorem abs_diff_semC4cd :
    |semC4c.confidence - semC4d.confidence| = 7/100 := by
  have h : semC4c.confidence - semC4d.confidence = 7/100 := by
    norm_num [semC4c, semC4d]
  rw [h, abs_of_nonneg]
  norm_num

theorem C4_witness :
    ConflictDetector.calculateSeverity semC4c semC4d = Severity.medium :=
  C4_severity_buckets.2.1 semC4c semC4d
    (by rw [confOrHalf_of_ne semC4c (by norm_num [semC4c]),
          confOrHalf_of_ne semC4d (by norm_num [semC4d]), abs_diff_semC4cd]
        norm_num)
    (by rw [confOrHalf_of_ne semC4c (by norm_num [semC4c]),
          confOrHalf_of_ne semC4d (by norm_num [semC4d]), abs_diff_semC4cd]
        norm_num)

/-! ## C5 -/

/-- C5 counterexample: a successful sql.js get returns the record but
leaves the database unchanged — the access counter stays 0 instead of
being incremented. -/
theorem C5_counterexample :
    (SqlJsMemoryStore.get dbC5 "sem-c5" .semantic).1 = dbC5
    ∧ (SqlJsMemoryStore.get dbC5 "sem-c5" .semantic).2.isSome = true
    ∧ dbC5.memories.map MemoryRow.access_count = [0] := by
  exact ⟨rfl, rfl, rfl⟩

/-- C5 amended: the better-sqlite3 get increments the found record's
access counter by exactly one and stamps last_accessed with the current
time, leaving rows with other ids untouched, and returns null leaving the
store unchanged on a miss; the sql.js get never mutates the store at
all. -/
theorem C5_get_access_tracking :
    (∀ (db : SQLiteDB) (id : String) (level : MemoryLevel) (now : ℕ)
        (row : MemoryRow),
        SQLiteMemoryStore.lookupMem db.memories id level = some row →
          (SQLiteMemoryStore.get db id level now).2
              = some (SQLiteMemoryStore.rowToMemory db row)
            ∧ SQLiteMemoryStore.lookupMem
                (SQLiteMemoryStore.get db id level now).1.memories id level
              = some { row with access_count := row.access_count + 1,
                                last_accessed := now }
            ∧ ∀ r ∈ db.memories, r.id ≠ id →
                r ∈ (SQLiteMemoryStore.get db id level now).1.memories)
    ∧ (∀ (db : SQLiteDB) (id : String) (level : MemoryLevel) (now : ℕ),
        SQLiteMemoryStore.lookupMem db.memories id level = none →
          SQLiteMemoryStore.get db id level now = (db, none))
    ∧ (∀ (db : SqlJsDB) (id : String) (level : MemoryLevel),
        (SqlJsMemoryStore.get db id level).1 = db) := by
  refine ⟨?_, ?_, ?_⟩
  · intro db id level now row h
    have hget : SQLiteMemoryStore.get db id level now
        = (SQLiteMemoryStore.updateAccessCount db id now,
            some (SQLiteMemoryStore.rowToMemory db row)) := by
      unfold SQLiteMemoryStore.get
      rw [h]
    refine ⟨by rw [hget], ?_, ?_⟩
    · rw [hget]
      exact find?_bump db.memories id level now row h
    · intro r hr hid
      rw [hget]
      exact mem_map_bump db.memories id now r hr hid
  · intro db id level now h
    unfold SQLiteMemoryStore.get
    rw [h]
  · intro db id level
    unfold SqlJsMemoryStore.get
    cases h : db.memories.find? fun r => decide (r.id = id ∧ r.level = level) <;>
      simp [h]

/-- C5 witness: the amended theorem at a one-row database. -/
theorem C5_witness :
    SQLiteMemoryStore.lookupMem
        (SQLiteMemoryStore.get { memories := [rowC3] } "sem-c3" .semantic 999).1.memories
        "sem-c3" .semantic
      = some { rowC3 with access_count := 1, last_accessed := 999 } :=
  (C5_get_access_tracking.1 { memories := [rowC3] } "sem-c3" .semantic 999 rowC3
    (by decide)).2.1

/-! ## C6 -/

/-- Projection of an optional AnyMemory onto the semantic variant. -/
def semanticOf : Option AnyMemory → Option SemanticMemory
  | some (.semantic s) => some s
  | _ => none

def originalOf : Option AnyMemory → Option OriginalMemory
  | some (.original o) => some o
  | _ => none

def episodeOf : Option AnyMemory → Option EpisodeMemory
  | some (.episode e) => some e
  | _ => none

def themeOf : Option AnyMemory → Option ThemeMemory
  | some (.theme t) => some t
  | _ => none

theorem lookupMem_upsert (rows : List MemoryRow) (row : MemoryRow)
    (idv : String) (hid : row.id = idv) (lv : MemoryLevel)
    (hlv : row.level = lv) :
    SQLiteMemoryStore.lookupMem (upsert MemoryRow.id rows row) idv lv
      = some row := by
  induction rows with
  | nil => simp [upsert, SQLiteMemoryStore.lookupMem, List.find?, hid, hlv]
  | cons y ys ih =>
    by_cases h : y.id = row.id
    · simp [upsert, h, SQLiteMemoryStore.lookupMem, List.find?, hid, hlv]
    · show SQLiteMemoryStore.lookupMem
        (if MemoryRow.id y = MemoryRow.id row then row :: ys
          else y :: upsert MemoryRow.id ys row) idv lv = some row
      rw [if_neg h]
      show List.find? _ (y :: upsert MemoryRow.id ys row) = some row
      rw [List.find?_cons_of_neg]
      · exact ih
      · have : ¬ y.id = idv := fun hy => h (hy.trans hid.symm)
        simp [this]

/-- After the save of a record, looking its row up by id and level returns
exactly the freshly written row, whatever the store held before. -/
theorem save_then_lookup (db : SQLiteDB) (m : AnyMemory) (now : ℕ) :
    SQLiteMemoryStore.lookupMem (SQLiteMemoryStore.save db m now).memories
        m.id (getLevel m)
      = some
          { id := m.id
            level := getLevel m
            content := extractContent m
            metadata := SQLiteMemoryStore.extractMetadata m
            created_at := jsOrNat (memCreatedAtNat m) now
            updated_at := now
            access_count := 0
            last_accessed := now
            retention_score := 1 } := by
  have hmem : (SQLiteMemoryStore.save db m now).memories
      = upsert MemoryRow.id db.memories
          { id := m.id
            level := getLevel m
            content := extractContent m
            metadata := SQLiteMemoryStore.extractMetadata m
            created_at := jsOrNat (memCreatedAtNat m) now
            updated_at := now
            access_count := 0
            last_accessed := now
            retention_score := 1 } := by
    cases m <;> rfl
  rw [hmem]
  exact lookupMem_upsert _ _ m.id rfl (getLevel m) rfl

theorem get_snd_of_lookup (db : SQLiteDB) (id : String) (level : MemoryLevel)
    (now : ℕ) (row : MemoryRow)
    (h : SQLiteMemoryStore.lookupMem db.memories id level = some row) :
    (SQLiteMemoryStore.get db id level now).2
      = some (SQLiteMemoryStore.rowToMemory db row) := by
  unfold SQLiteMemoryStore.get
  rw [h]

/-- The join rows written with replace-semantics read back as exactly the
saved id list. -/
theorem joinIds_replace (old : List JoinRow) (x : String) (ids : List String)
    (mkRow : String → JoinRow) (hmk : ∀ i, (mkRow i).parentId = x)
    (hmk2 : ∀ i, (mkRow i).childId = i) :
    ((old.filter (fun r => !(r.parentId = x : Bool)) ++ ids.map mkRow).filter
        (fun r => decide (r.parentId = x))).map JoinRow.childId = ids := by
  rw [List.filter_append]
  have h1 : (old.filter fun r => !(r.parentId = x : Bool)).filter
      (fun r => decide (r.parentId = x)) = [] := by
    rw [List.filter_filter]
    apply List.filter_eq_nil_iff.mpr
    intro a _
    by_cases h : a.parentId = x <;> simp [h]
  have h2 : (ids.map mkRow).filter (fun r => decide (r.parentId = x))
      = ids.map mkRow := by
    apply List.filter_eq_self.mpr
    intro r hr
    obtain ⟨i, _, rfl⟩ := List.mem_map.mp hr
    simp [hmk i]
  rw [h1, h2, List.nil_append, List.map_map]
  have hco : JoinRow.childId ∘ mkRow = fun i => i := funext fun i => hmk2 i
  rw [hco]
  exact List.map_id ids

/-- C6 counterexample: round-tripping a semantic with a nonempty
sourceEpisodes list through the sql.js store returns it with
sourceEpisodes erased to [], so the records differ on an id-list
attribute. -/
theorem C6_counterexample :
    (SqlJsMemoryStore.get
        (SqlJsMemoryStore.save { memories := [] } (.semantic semC6) 5)
        "sem-rt" .semantic).2
      = some (.semantic { semC6 with sourceEpisodes := [] })
    ∧ semC6.sourceEpisodes = ["ep-1"]
    ∧ ({ semC6 with sourceEpisodes := ([] : List String) } : SemanticMemory)
        ≠ semC6 := by
  exact ⟨rfl, rfl, by decide⟩

/-- C6 amended: on the better-sqlite3 store (whose join tables rebuild the
id-list attributes), saving a record and immediately getting it back by id
and level preserves all the level-defining fields the claim lists —
content / summary / description, type, confidence (when nonzero; the JS
falsy fallback turns a stored 0 into 0.5), the entity-reference list and
the id-list attributes. The sql.js store fails this (see the
counterexample). -/
theorem C6_sqlite_round_trip :
    (∀ (db : SQLiteDB) (o : OriginalMemory) (now : ℕ),
        (originalOf (SQLiteMemoryStore.get
              (SQLiteMemoryStore.save db (.original o) now)
              o.id .original now).2).map OriginalMemory.content
          = some o.content)
    ∧ (∀ (db : SQLiteDB) (e : EpisodeMemory) (now : ℕ),
        e.originalIds.Nodup →
          (episodeOf (SQLiteMemoryStore.get
                (SQLiteMemoryStore.save db (.episode e) now)
                e.id .episode now).2).map EpisodeMemory.summary
              = some e.summary
          ∧ (episodeOf (SQLiteMemoryStore.get
                (SQLiteMemoryStore.save db (.episode e) now)
                e.id .episode now).2).map EpisodeMemory.originalIds
              = some e.originalIds)
    ∧ (∀ (db : SQLiteDB) (s : SemanticMemory) (now : ℕ),
        s.confidence ≠ 0 → s.sourceEpisodes.Nodup →
          (semanticOf (SQLiteMemoryStore.get
                (SQLiteMemoryStore.save db (.semantic s) now)
                s.id .semantic now).2).map SemanticMemory.content
              = some s.content
          ∧ (semanticOf (SQLiteMemoryStore.get
                (SQLiteMemoryStore.save db (.semantic s) now)
                s.id .semantic now).2).map SemanticMemory.type
              = some s.type
          ∧ (semanticOf (SQLiteMemoryStore.get
                (SQLiteMemoryStore.save db (.semantic s) now)
                s.id .semantic now).2).map SemanticMemory.confidence
              = some s.confidence
          ∧ (semanticOf (SQLiteMemoryStore.get
                (SQLiteMemoryStore.save db (.semantic s) now)
                s.id .semantic now).2).map SemanticMemory.entityRefs
              = some s.entityRefs
          ∧ (semanticOf (SQLiteMemoryStore.get
                (SQLiteMemoryStore.save db (.semantic s) now)
                s.id .semantic now).2).map SemanticMemory.sourceEpisodes
              = some s.sourceEpisodes)
    ∧ (∀ (db : SQLiteDB) (t : ThemeMemory) (now : ℕ),
        t.semanticIds.Nodup →
          (themeOf (SQLiteMemoryStore.get
                (SQLiteMemoryStore.save db (.theme t) now)
                t.id .theme now).2).map ThemeMemory.description
              = some t.description
          ∧ (themeOf (SQLiteMemoryStore.get
                (SQLiteMemoryStore.save db (.theme t) now)
                t.id .theme now).2).map ThemeMemory.semanticIds
              = some t.semanticIds) := by
  refine ⟨?_, ?_, ?_, ?_⟩
  · intro db o now
    rw [get_snd_of_lookup (SQLiteMemoryStore.save db (.original o) now)
      o.id .original now _ (save_then_lookup db (.original o) now)]
    rfl
  · intro db e now _
    rw [get_snd_of_lookup (SQLiteMemoryStore.save db (.episode e) now)
      e.id .episode now _ (save_then_lookup db (.episode e) now)]
    refine ⟨rfl, ?_⟩
    exact congrArg some
      (joinIds_replace db.episode_sources e.id e.originalIds _
        (fun i => rfl) (fun i => rfl))
  · intro db s now hc _
    rw [get_snd_of_lookup (SQLiteMemoryStore.save db (.semantic s) now)
      s.id .semantic now _ (save_then_lookup db (.semantic s) now)]
    refine ⟨rfl, rfl, ?_, rfl, ?_⟩
    · show some (if s.confidence = 0 then (1/2 : ℚ) else s.confidence)
        = some s.confidence
      rw [if_neg hc]
    · exact congrArg some
        (joinIds_replace db.semantic_sources s.id s.sourceEpisodes _
          (fun i => rfl) (fun i => rfl))
  · intro db t now _
    rw [get_snd_of_lookup (SQLiteMemoryStore.save db (.theme t) now)
      t.id .theme now _ (save_then_lookup db (.theme t) now)]
    refine ⟨rfl, ?_⟩
    exact congrArg some
      (joinIds_replace db.theme_relations t.id t.semanticIds _
        (fun i => rfl) (fun i => rfl))

/-- C6 witness: the semantic clause of the round-trip theorem at a concrete
record whose sourceEpisodes list is nonempty. -/
theorem C6_witness :
    (semanticOf (SQLiteMemoryStore.get
          (SQLiteMemoryStore.save { memories := [] } (.semantic semC6) 5)
          "sem-rt" .semantic 6).2).map SemanticMemory.sourceEpisodes
      = some ["ep-1"] :=
  (C6_sqlite_round_trip.2.2.1 { memories := [] } semC6 5
    (by norm_num [semC6]) (by decide)).2.2.2.2

/-! ## C2 -/

theorem exp_neg_one_gt_tenth : (1:ℝ)/10 < Real.exp (-1) := by
  rw [Real.exp_neg, ← one_div,
    div_lt_div_iff₀ (by norm_num) (Real.exp_pos 1)]
  have h := Real.exp_one_lt_d9
  linarith

/-- C2: calculateRetention is identically the specification formula taken
at access count 0 — the getAccessCount stub never consults the store — and
at the concrete failing input (one day of age, store-maintained access
count 2) the code's value exp(-1) is strictly below the specified value
exp(-1/2). -/
theorem C2_calculateRetention_ignores_store_access_count :
    (∀ (memory : AnyMemory) (currentTime : ℕ),
        ForgettingMechanism.calculateRetention memory currentTime
          = specCalculateRetention memory currentTime 0)
    ∧ ForgettingMechanism.calculateRetention memC2 tC2
        < specCalculateRetention memC2 tC2 2 := by
  constructor
  · intro memory currentTime
    rfl
  · have hc : ForgettingMechanism.resolveCreatedAt memC2 tC2 = 86400000 := rfl
    have e1 : ForgettingMechanism.calculateRetention memC2 tC2
        = max (1/10) (min 1 (Real.exp (-1))) := by
      unfold ForgettingMechanism.calculateRetention
      rw [hc, show ForgettingMechanism.getAccessCount memC2.id = 0 from rfl,
        ForgettingMechanism.MIN_RETENTION]
      norm_num [tC2]
    have e2 : specCalculateRetention memC2 tC2 2
        = max (1/10) (min 1 (Real.exp (-(1/2)))) := by
      unfold specCalculateRetention
      rw [hc]
      norm_num [tC2]
    have hlt : Real.exp (-1) < Real.exp (-(1/2)) :=
      Real.exp_lt_exp.mpr (by norm_num)
    have hb1 : Real.exp (-1) ≤ 1 := Real.exp_le_one_iff.mpr (by norm_num)
    have hb2 : Real.exp (-(1/2)) ≤ 1 := Real.exp_le_one_iff.mpr (by norm_num)
    have hl1 : (1:ℝ)/10 ≤ Real.exp (-1) := le_of_lt exp_neg_one_gt_tenth
    have hl2 : (1:ℝ)/10 ≤ Real.exp (-(1/2)) :=
      le_of_lt (exp_neg_one_gt_tenth.trans hlt)
    rw [e1, e2, min_eq_right hb1, min_eq_right hb2,
      max_eq_right hl1, max_eq_right hl2]
    exact hlt

/-! ## C3 -/

theorem exp_neg_three_le_tenth : Real.exp (-3) ≤ (1:ℝ)/10 := by
  have h3 : (10:ℝ) ≤ Real.exp 3 := by
    have h : Real.exp 3 = Real.exp 1 ^ (3:ℕ) := by
      rw [← Real.exp_nat_mul]
      norm_num
    rw [h]
    have hb : (2.7182818283:ℝ)^(3:ℕ) ≤ Real.exp 1 ^ (3:ℕ) :=
      pow_le_pow_left₀ (by norm_num) (le_of_lt Real.exp_one_gt_d9) 3
    refine le_trans (by norm_num) hb
  rw [Real.exp_neg, ← one_div]
  rw [div_le_div_iff₀ (Real.exp_pos 3) (by norm_num)]
  linarith

theorem retention_rowC3 :
    ForgettingMechanism.calculateRetention
        (SQLiteMemoryStore.rowToMemory dbC3 rowC3) nowC3 = 1/10 := by
  have e1 : ForgettingMechanism.calculateRetention
      (SQLiteMemoryStore.rowToMemory dbC3 rowC3) nowC3
      = max (1/10) (min 1 (Real.exp (-3))) := by
    unfold ForgettingMechanism.calculateRetention
    rw [show ForgettingMechanism.resolveCreatedAt
        (SQLiteMemoryStore.rowToMemory dbC3 rowC3) nowC3 = 86400000 from rfl,
      show ForgettingMechanism.getAccessCount
        (SQLiteMemoryStore.rowToMemory dbC3 rowC3).id = 0 from rfl,
      ForgettingMechanism.MIN_RETENTION]
    norm_num [nowC3]
  rw [e1, min_eq_right (Real.exp_le_one_iff.mpr (by norm_num)),
    max_eq_left exp_neg_three_le_tenth]

theorem importance_rowC3 :
    ForgettingMechanism.calculateImportance
      (SQLiteMemoryStore.rowToMemory dbC3 rowC3) = 1 := by
  show min 1 ((1/2) + (1 : ℚ) * (1/5) + ForgettingMechanism.typeWeight .goal
      + min (1/5) ((4 : ℚ) * (1/20))) = 1
  rw [ForgettingMechanism.typeWeight]
  rw [show (4:ℚ) * (1/20) = 1/5 by norm_num, min_self]
  rw [min_eq_left (by norm_num)]

/-- C3: on the concrete store dbC3 at three days of age the combined score
is exactly 0.1, which lands in the archive branch; archiveLowValue counts
the record as archived but, because updateRetentionScore is an empty stub,
returns the store completely unchanged — the stored retention score stays
1.0 instead of being halved. -/
theorem C3_archiveLowValue_does_not_halve :
    ForgettingMechanism.archiveLowValue dbC3
        ForgettingMechanism.ARCHIVE_THRESHOLD nowC3
      = ({ archived := 1, deleted := 0, retained := 0 }, dbC3)
    ∧ dbC3.memories.map MemoryRow.retention_score = [1] := by
  constructor
  · have hscores : ForgettingMechanism.getMemoryScores dbC3 nowC3
        = [{ id := "sem-c3"
             retentionScore := ForgettingMechanism.calculateRetention
               (SQLiteMemoryStore.rowToMemory dbC3 rowC3) nowC3
             importanceScore := ForgettingMechanism.calculateImportance
               (SQLiteMemoryStore.rowToMemory dbC3 rowC3)
             accessFrequency := 0
             recency := (nowC3 : ℤ)
               - (jsOrNat (memCreatedAtNat
                    (SQLiteMemoryStore.rowToMemory dbC3 rowC3)) nowC3 : ℤ)
             age := ((nowC3 : ℝ)
               - (jsOrNat (memCreatedAtNat
                    (SQLiteMemoryStore.rowToMemory dbC3 rowC3)) nowC3 : ℝ))
               / (1000 * 60 * 60 * 24) }] := rfl
    unfold ForgettingMechanism.archiveLowValue
    rw [hscores]
    simp only [List.foldl_cons, List.foldl_nil]
    have hcomb : ForgettingMechanism.calculateRetention
          (SQLiteMemoryStore.rowToMemory dbC3 rowC3) nowC3
          * ((ForgettingMechanism.calculateImportance
              (SQLiteMemoryStore.rowToMemory dbC3 rowC3) : ℚ) : ℝ)
          * (1 + Real.logb 10 (1 + ((0:ℕ):ℝ)) / 2) = 1/10 := by
      rw [retention_rowC3, importance_rowC3]
      norm_num
    rw [hcomb]
    rw [if_neg (by rw [ForgettingMechanism.DELETE_THRESHOLD]; norm_num),
      if_pos (by rw [ForgettingMechanism.ARCHIVE_THRESHOLD]; norm_num)]
    rfl
  · rfl

/-! ## C7 -/

/-- The remember options of the Postgres scenario: two preference semantics
sharing the entity "Postgres". -/
def optsC7 : RememberOptions :=
  { type := some .preference
    confidence := some (9/10)
    entities := some ["Postgres"] }

/-- The store after seeding an empty engine with two remembers (at clock
ticks 1 and 2) carrying the given contents. -/
def storeC7 (c1 c2 : String) : InMemoryStore :=
  (MemoryEngine.remember
    ((MemoryEngine.remember { } c1 optsC7 1).1) c2 optsC7 2).1

def semC7one (c : String) : SemanticMemory := MemoryEngine.rememberSemantic c optsC7 1

def semC7two (c : String) : SemanticMemory := MemoryEngine.rememberSemantic c optsC7 2

/-- The single theme held by the seeded store: created by the first
remember and appended to by the second. -/
def themeC7 : ThemeMemory :=
  { id := "theme-1"
    name := "Postgres"
    description := "Theme for Postgres"
    semanticIds := ["sem-1", "sem-2"]
    coherenceScore := jsOrQ (optQ optsC7.confidence) (1/2)
    createdAt := 1
    updatedAt := 2 }

/-- Any content containing the 19-character query phrase is longer than the
18-character theme description, so the recall theme lookup (which asks for
the whole semantic content as a substring of the description) cannot
match. -/
theorem likeMatch_theme_false {c : String}
    (h : likeMatch c "postgres preference" = true) :
    likeMatch "Theme for Postgres" c = false := by
  by_contra hne
  rw [Bool.not_eq_false] at hne
  have h1 := (containsSub_iff _ _).mp h
  have h2 := (containsSub_iff _ _).mp hne
  have l1 : (lowerChars "postgres preference").length ≤ (lowerChars c).length :=
    h1.length_le
  have l2 : (lowerChars c).length ≤ (lowerChars "Theme for Postgres").length :=
    h2.length_le
  have e1 : (lowerChars "postgres preference").length = 19 := by decide
  have e2 : (lowerChars "Theme for Postgres").length = 18 := by decide
  omega

/-- C7 counterexample: after seeding two matching Postgres-preference
semantics, recall("postgres preference") returns both semantics but an
empty theme list — no theme mentioning Postgres is ever returned. -/
theorem C7_counterexample :
    (MemoryEngine.«recall»
        (storeC7 "the postgres preference is strong" "my postgres preference stays")
        "postgres preference").evidence.themes = []
    ∧ (MemoryEngine.«recall»
        (storeC7 "the postgres preference is strong" "my postgres preference stays")
        "postgres preference").evidence.semantics.length = 2 := by
  exact ⟨by decide, by decide⟩

/-- C7 amended: for any two seeded contents containing the query phrase,
recall returns both semantics as evidence, but the theme list is always
empty, because the theme lookup requires the theme description to contain
the entire semantic content. -/
theorem C7_recall_scenario (c1 c2 : String)
    (h1 : likeMatch c1 "postgres preference" = true)
    (h2 : likeMatch c2 "postgres preference" = true) :
    (MemoryEngine.«recall» (storeC7 c1 c2) "postgres preference").evidence.themes = []
    ∧ (MemoryEngine.«recall» (storeC7 c1 c2)
        "postgres preference").evidence.semantics.length = 2 := by
  have hf1 := likeMatch_theme_false h1
  have hf2 := likeMatch_theme_false h2
  have hsem : (storeC7 c1 c2).semantics = [semC7one c1, semC7two c2] := rfl
  have hthemes : (storeC7 c1 c2).themes = [themeC7] := rfl
  have hdesc : themeC7.description = "Theme for Postgres" := rfl
  have hc1 : (semC7one c1).content = c1 := rfl
  have hc2 : (semC7two c2).content = c2 := rfl
  have hth1 : InMemoryStore.searchThemes (storeC7 c1 c2) c1 1 = [] := by
    rw [InMemoryStore.searchThemes, InMemoryStore.searchLevel, hthemes]
    simp only [InMemoryStore.searchLevelFrom, hdesc, hf1,
      Bool.false_eq_true, if_false, List.length_nil]
    rfl
  have hth2 : InMemoryStore.searchThemes (storeC7 c1 c2) c2 1 = [] := by
    rw [InMemoryStore.searchThemes, InMemoryStore.searchLevel, hthemes]
    simp only [InMemoryStore.searchLevelFrom, hdesc, hf2,
      Bool.false_eq_true, if_false, List.length_nil]
    rfl
  have hs : InMemoryStore.searchSemantics (storeC7 c1 c2) "postgres preference" 10
      = [semC7one c1, semC7two c2] := by
    rw [InMemoryStore.searchSemantics, InMemoryStore.searchLevel, hsem]
    simp only [InMemoryStore.searchLevelFrom, hc1, hc2, h1, h2, if_true]
    norm_num
  constructor
  · unfold MemoryEngine.«recall»
    rw [hs]
    simp only [List.foldl_cons, List.foldl_nil, hc1, hc2, hth1, hth2]
    rfl
  · unfold MemoryEngine.«recall»
    rw [hs]
    rfl

/-- C7 witness: the amended scenario theorem at the concrete contents. -/
theorem C7_witness :
    (MemoryEngine.«recall»
        (storeC7 "a postgres preference here" "big postgres preference there")
        "postgres preference").evidence.themes = [] :=
  (C7_recall_scenario "a postgres preference here" "big postgres preference there"
    (by decide) (by decide)).1

/-! ## C1 -/

theorem searchThemes_found (s : InMemoryStore) (q : String) (t : ThemeMemory)
    (ts : List ThemeMemory) (h : InMemoryStore.searchThemes s q 1 = t :: ts) :
    t ∈ s.themes := by
  rw [InMemoryStore.searchThemes,
    InMemoryStore.searchLevel_eq _ _ _ _ (by norm_num)] at h
  have hmem : t ∈ (s.themes.filter
      fun m => likeMatch m.description q).take 1 := by
    rw [h]
    simp
  exact List.mem_of_mem_filter (List.take_subset _ _ hmem)

theorem findOrCreateThemeGo_cases (s : InMemoryStore) (sem : SemanticMemory)
    (now : ℕ) :
    ∀ (es : List String) (t : ThemeMemory) (s' : InMemoryStore),
      MemoryEngine.findOrCreateThemeGo s sem now es = some (t, s') →
      ∃ told ∈ s.themes,
        t = { told with semanticIds := told.semanticIds ++ [sem.id]
                        updatedAt := now }
        ∧ s' = s.save (.theme t) := by
  intro es
  induction es with
  | nil => intro t s' h; simp [MemoryEngine.findOrCreateThemeGo] at h
  | cons e rest ih =>
    intro t s' h
    rw [MemoryEngine.findOrCreateThemeGo] at h
    cases hsearch : InMemoryStore.searchThemes s e 1 with
    | nil =>
      rw [hsearch] at h
      exact ih t s' h
    | cons t0 ts =>
      rw [hsearch] at h
      simp only [Option.some.injEq, Prod.mk.injEq] at h
      obtain ⟨h1, h2⟩ := h
      exact ⟨t0, searchThemes_found s e t0 ts hsearch, h1.symm,
        by rw [← h2, h1]⟩

theorem findOrCreateTheme_found (s : InMemoryStore) (sem : SemanticMemory)
    (now : ℕ) (t : ThemeMemory) (s' : InMemoryStore)
    (h : MemoryEngine.findOrCreateThemeGo s sem now sem.entityRefs
      = some (t, s')) :
    MemoryEngine.findOrCreateTheme s sem now = (t, s') := by
  unfold MemoryEngine.findOrCreateTheme
  rw [h]

theorem findOrCreateTheme_new (s : InMemoryStore) (sem : SemanticMemory)
    (now : ℕ)
    (h : MemoryEngine.findOrCreateThemeGo s sem now sem.entityRefs = none) :
    (MemoryEngine.findOrCreateTheme s sem now).2 = s
    ∧ (MemoryEngine.findOrCreateTheme s sem now).1.semanticIds = [sem.id]
    ∧ (MemoryEngine.findOrCreateTheme s sem now).1.id
        = "theme-" ++ toString now := by
  unfold MemoryEngine.findOrCreateTheme
  rw [h]
  exact ⟨rfl, rfl, rfl⟩

/-- C1: one remember call appends exactly one fresh Original, Episode and
Semantic to the store, and touches exactly one theme: either a single new
theme carrying just the new semantic id is appended, or a single existing
theme has the semantic id appended to its semanticIds (and its updatedAt
stamped), every other theme staying in place. The freshness hypotheses say
the minted ids are not yet taken, and the Nodup hypothesis is the store
invariant that the theme map has one entry per id. -/
theorem C1_remember_hierarchy (s : InMemoryStore) (content : String)
    (options : RememberOptions) (now : ℕ)
    (hO : ∀ o ∈ s.originals, o.id ≠ "orig-" ++ toString now)
    (hE : ∀ e ∈ s.episodes, e.id ≠ "ep-" ++ toString now)
    (hS : ∀ m ∈ s.semantics, m.id ≠ "sem-" ++ toString now)
    (hT : ∀ t ∈ s.themes, t.id ≠ "theme-" ++ toString now)
    (hN : (s.themes.map ThemeMemory.id).Nodup) :
    (MemoryEngine.remember s content options now).1.originals
        = s.originals ++ [MemoryEngine.rememberOriginal content now]
    ∧ (MemoryEngine.remember s content options now).1.episodes
        = s.episodes ++ [MemoryEngine.rememberEpisode content options now]
    ∧ (MemoryEngine.remember s content options now).1.semantics
        = s.semantics ++ [MemoryEngine.rememberSemantic content options now]
    ∧ ((∃ t : ThemeMemory,
          t.semanticIds = [(MemoryEngine.rememberSemantic content options now).id]
          ∧ (MemoryEngine.remember s content options now).1.themes
              = s.themes ++ [t])
        ∨ (∃ pre told suf, s.themes = pre ++ told :: suf
            ∧ (MemoryEngine.remember s content options now).1.themes
                = pre ++
                    ({ told with
                        semanticIds := told.semanticIds
                          ++ [(MemoryEngine.rememberSemantic content options now).id]
                        updatedAt := now } : ThemeMemory) :: suf)) := by
  have hrem : (MemoryEngine.remember s content options now).1
      = ((((MemoryEngine.findOrCreateTheme s
              (MemoryEngine.rememberSemantic content options now) now).2.save
            (.original (MemoryEngine.rememberOriginal content now))).save
            (.episode (MemoryEngine.rememberEpisode content options now))).save
            (.semantic (MemoryEngine.rememberSemantic content options now))).save
            (.theme (MemoryEngine.findOrCreateTheme s
              (MemoryEngine.rememberSemantic content options now) now).1) := rfl
  cases hfc : MemoryEngine.findOrCreateThemeGo s
      (MemoryEngine.rememberSemantic content options now) now
      (MemoryEngine.rememberSemantic content options now).entityRefs with
  | none =>
    obtain ⟨h2s, h2sem, h2id⟩ := findOrCreateTheme_new s _ now hfc
    rw [hrem, h2s]
    refine ⟨?_, ?_, ?_, Or.inl ⟨(MemoryEngine.findOrCreateTheme s
      (MemoryEngine.rememberSemantic content options now) now).1, h2sem, ?_⟩⟩
    · show upsert OriginalMemory.id s.originals
        (MemoryEngine.rememberOriginal content now) = _
      exact upsert_of_fresh _ _ _ hO
    · show upsert EpisodeMemory.id s.episodes
        (MemoryEngine.rememberEpisode content options now) = _
      exact upsert_of_fresh _ _ _ hE
    · show upsert SemanticMemory.id s.semantics
        (MemoryEngine.rememberSemantic content options now) = _
      exact upsert_of_fresh _ _ _ hS
    · show upsert ThemeMemory.id s.themes
        (MemoryEngine.findOrCreateTheme s
          (MemoryEngine.rememberSemantic content options now) now).1 = _
      refine upsert_of_fresh _ _ _ fun y hy => ?_
      rw [h2id]
      exact hT y hy
  | some pr =>
    obtain ⟨t, s'⟩ := pr
    have hfound := findOrCreateTheme_found s _ now t s' hfc
    obtain ⟨told, htold, ht_eq, hs'_eq⟩ :=
      findOrCreateThemeGo_cases s _ now _ t s' hfc
    obtain ⟨pre, suf, hsplit⟩ := List.append_of_mem htold
    have hpre : ∀ y ∈ pre, y.id ≠ told.id := by
      intro y hy
      rw [hsplit, List.map_append, List.map_cons] at hN
      have hdisj := List.disjoint_of_nodup_append hN
      intro hcontra
      exact hdisj (List.mem_map_of_mem _ hy) (by rw [hcontra]; simp)
    have htid : t.id = told.id := by rw [ht_eq]
    have hth1 : s'.themes = pre ++ t :: suf := by
      rw [hs'_eq]
      show upsert ThemeMemory.id s.themes t = _
      rw [hsplit]
      exact upsert_replace _ pre suf told t htid hpre
    have hsO : s'.originals = s.originals := by rw [hs'_eq]; rfl
    have hsE : s'.episodes = s.episodes := by rw [hs'_eq]; rfl
    have hsS : s'.semantics = s.semantics := by rw [hs'_eq]; rfl
    rw [hrem, hfound]
    refine ⟨?_, ?_, ?_, Or.inr ⟨pre, told, suf, hsplit, ?_⟩⟩
    · show upsert OriginalMemory.id s'.originals
        (MemoryEngine.rememberOriginal content now) = _
      rw [hsO]
      exact upsert_of_fresh _ _ _ hO
    · show upsert EpisodeMemory.id s'.episodes
        (MemoryEngine.rememberEpisode content options now) = _
      rw [hsE]
      exact upsert_of_fresh _ _ _ hE
    · show upsert SemanticMemory.id s'.semantics
        (MemoryEngine.rememberSemantic content options now) = _
      rw [hsS]
      exact upsert_of_fresh _ _ _ hS
    · show upsert ThemeMemory.id s'.themes t = _
      rw [hth1]
      rw [upsert_replace _ pre suf t t rfl
        (fun y hy => by rw [htid]; exact hpre y hy)]
      rw [← ht_eq]

/-- C1 witness: remember on the empty store. -/
theorem C1_witness :
    (MemoryEngine.remember { } "hello" { } 7).1.semantics
      = [MemoryEngine.rememberSemantic "hello" { } 7] :=
  (C1_remember_hierarchy { } "hello" { } 7 (by simp) (by simp) (by simp)
    (by simp) (by simp)).2.2.1

/-! ## C8: soundness of the BFS -/

namespace KnowledgeGraph

/-- Every BFS queue entry is a walkable path from the source: its edges
chain from the source to its frontier node, its node path has one more
entry than its edge list, and its edge count respects the hop bound. -/
def EntrySound (g : KnowledgeGraph) (s : String) (maxHops : ℕ)
    (e : QueueEntry) : Prop :=
  RelPath g s e.entityId e.edges
    ∧ e.path.length = e.edges.length + 1
    ∧ e.edges.length ≤ maxHops

theorem pathWeight_eq_sum (es : List Relation) :
    pathWeight es = (es.map Relation.weight).sum := by
  have h : ∀ (a : ℚ) (l : List Relation),
      l.foldl (fun sum e => sum + e.weight) a = a + (l.map Relation.weight).sum := by
    intro a l
    induction l generalizing a with
    | nil => simp
    | cons x xs ih => simp [ih, add_assoc]
  simpa [pathWeight] using h 0 es

theorem newEntries_sound (g : KnowledgeGraph) (s : String) (maxHops : ℕ)
    (current : QueueEntry) (visited : List String)
    (hcur : EntrySound g s maxHops current)
    (hlen : ¬ maxHops < current.path.length) :
    ∀ e ∈ (getEntityRelations g current.entityId).filterMap fun r =>
        if otherEnd r current.entityId ∈ current.entityId :: visited then none
        else
          some
            { entityId := otherEnd r current.entityId
              path := current.path ++ [otherEnd r current.entityId]
              edges := current.edges ++ [r] },
      EntrySound g s maxHops e := by
  intro e he
  obtain ⟨r, hr, he2⟩ := List.mem_filterMap.mp he
  by_cases hv : otherEnd r current.entityId ∈ current.entityId :: visited
  · rw [if_pos hv] at he2
    exact absurd he2 (by simp)
  · rw [if_neg hv] at he2
    obtain ⟨hcur1, hcur2, hcur3⟩ := hcur
    have hrg : r ∈ g.relations := List.mem_of_mem_filter hr
    have hinc : r.source = current.entityId ∨ r.target = current.entityId := by
      have h2 := List.of_mem_filter hr
      simpa using h2
    have he3 := Option.some.inj he2
    subst he3
    refine ⟨RelPath.snoc hrg hcur1 hinc, ?_, ?_⟩
    · simp [hcur2]
    · have : current.path.length ≤ maxHops := not_lt.mp hlen
      simp only [List.length_append, List.length_singleton]
      omega

theorem bfsLoop_sound (g : KnowledgeGraph) (s targetId : String)
    (maxHops : ℕ) :
    ∀ (fuel : ℕ) (q : List QueueEntry) (visited : List String),
      (∀ e ∈ q, EntrySound g s maxHops e) →
      ∀ p, bfsLoop g targetId maxHops fuel q visited = some p →
        RelPath g s targetId p.edges
        ∧ p.edges.length ≤ maxHops
        ∧ p.totalWeight = (p.edges.map Relation.weight).sum := by
  intro fuel
  induction fuel with
  | zero =>
    intro q visited _ p h
    simp [bfsLoop] at h
  | succ fuel ih =>
    intro q visited hq p h
    cases q with
    | nil => simp [bfsLoop] at h
    | cons current queue =>
      simp only [bfsLoop] at h
      by_cases htgt : current.entityId = targetId
      · rw [if_pos htgt] at h
        obtain ⟨hrp, hlen2, hle⟩ := hq current (by simp)
        have hp : p
            = { nodes := current.path.map (entityByIdD g)
                edges := current.edges
                totalWeight := pathWeight current.edges } :=
          (Option.some.inj h).symm
        subst hp
        exact ⟨htgt ▸ hrp, hle, pathWeight_eq_sum _⟩
      · rw [if_neg htgt] at h
        by_cases hlen : maxHops < current.path.length
        · rw [if_pos hlen] at h
          exact ih queue visited (fun e he => hq e (by simp [he])) p h
        · rw [if_neg hlen] at h
          by_cases hvis : current.entityId ∈ visited
          · rw [if_pos hvis] at h
            exact ih queue visited (fun e he => hq e (by simp [he])) p h
          · rw [if_neg hvis] at h
            refine ih _ _ ?_ p h
            intro e he
            rw [List.mem_append] at he
            cases he with
            | inl he => exact hq e (by simp [he])
            | inr he =>
              exact newEntries_sound g s maxHops current visited
                (hq current (by simp)) hlen e he

end KnowledgeGraph

/-! ## C8: completeness and minimality of the BFS -/

namespace KnowledgeGraph

/-- The node ids of the ghost expansion history (the concrete visited
set). -/
def histNodes (hist : List (String × ℕ)) : List String := hist.map Prod.fst

/-- Target closure: an expanded node adjacent to the target (within the
hop bound) always has a pending queue entry for the target. -/
def InvTarget (g : KnowledgeGraph) (t : String) (maxHops : ℕ)
    (q : List QueueEntry) (hist : List (String × ℕ)) : Prop :=
  ∀ uc ∈ hist, ∀ r ∈ g.relations,
    (r.source = uc.1 ∨ r.target = uc.1) → otherEnd r uc.1 = t →
    uc.2 + 1 ≤ maxHops →
    ∃ e ∈ q, e.entityId = t ∧ e.edges.length ≤ uc.2 + 1

/-- Frontier closure: a non-target neighbor of an expanded node is itself
expanded at count at most c+1, or queued at count at most c+1 (needed only
strictly inside the hop bound). -/
def InvClosure (g : KnowledgeGraph) (t : String) (maxHops : ℕ)
    (q : List QueueEntry) (hist : List (String × ℕ)) : Prop :=
  ∀ uc ∈ hist, ∀ r ∈ g.relations,
    (r.source = uc.1 ∨ r.target = uc.1) → otherEnd r uc.1 ≠ t →
    uc.2 + 1 < maxHops →
    (∃ c2, (otherEnd r uc.1, c2) ∈ hist ∧ c2 ≤ uc.2 + 1)
    ∨ ∃ e ∈ q, e.entityId = otherEnd r uc.1 ∧ e.edges.length ≤ uc.2 + 1

/-- The loop invariant of the BFS, over the queue and the ghost history. -/
structure Inv (g : KnowledgeGraph) (s t : String) (maxHops : ℕ)
    (q : List QueueEntry) (hist : List (String × ℕ)) : Prop where
  sound : ∀ e ∈ q, EntrySound g s maxHops e
  ids : ∀ e ∈ q, e.entityId ∈ graphIds g
  sorted : List.Pairwise
    (fun e1 e2 : QueueEntry => e1.edges.length ≤ e2.edges.length) q
  window : ∀ e1 ∈ q, ∀ e2 ∈ q, e2.edges.length ≤ e1.edges.length + 1
  histLe : ∀ uc ∈ hist, ∀ e ∈ q, uc.2 ≤ e.edges.length
  histNe : ∀ uc ∈ hist, uc.1 ≠ t
  target : InvTarget g t maxHops q hist
  closure : InvClosure g t maxHops q hist
  root : (∃ e ∈ q, e.entityId = s ∧ e.edges = [])
    ∨ (s, 0) ∈ hist ∨ (maxHops = 0 ∧ s ≠ t)

/-- The key counting argument: under the closure invariants, no walkable
path from an expanded node to the target can undercut every pending queue
entry. B is the lower bound on queue edge counts (the returned count at a
target pop, or maxHops+1 at an empty queue). -/
theorem bfs_walk (g : KnowledgeGraph) (t : String) (maxHops : ℕ)
    (q : List QueueEntry) (hist : List (String × ℕ)) (B : ℕ)
    (hT : ∀ uc ∈ hist, uc.1 ≠ t)
    (hE1 : InvTarget g t maxHops q hist)
    (hE2 : InvClosure g t maxHops q hist)
    (hK : ∀ e ∈ q, B ≤ e.edges.length)
    (hB : B ≤ maxHops + 1) :
    ∀ (es : List Relation) (a : String) (c : ℕ),
      RelPath g a t es → (a, c) ∈ hist → c + es.length < B → False := by
  intro es
  induction es with
  | nil =>
    intro a c hpath hmem _
    cases hpath
    exact hT _ hmem rfl
  | cons r es ih =>
    intro a c hpath hmem hlt
    cases hpath with
    | cons hr hinc htail =>
      by_cases hy : otherEnd r a = t
      · have h1 : c + 1 ≤ maxHops := by
          simp only [List.length_cons] at hlt
          omega
        obtain ⟨e, he, _, hcnt⟩ := hE1 (a, c) hmem r hr hinc hy h1
        have := hK e he
        simp only [List.length_cons] at hlt
        omega
      · have hes : es ≠ [] := by
          intro hnil
          subst hnil
          cases htail
          exact hy rfl
        have hlen1 : 1 ≤ es.length := by
          cases es with
          | nil => exact absurd rfl hes
          | cons x xs => simp
        have hguard : c + 1 < maxHops := by
          simp only [List.length_cons] at hlt
          omega
        rcases hE2 (a, c) hmem r hr hinc hy hguard with
          ⟨c2, hmem2, hc2⟩ | ⟨e, he, _, hcnt⟩
        · refine ih (otherEnd r a) c2 htail hmem2 ?_
          simp only [List.length_cons] at hlt
          omega
        · have := hK e he
          simp only [List.length_cons] at hlt
          omega

/-- Invariant restriction for the two skip branches (entry over the hop
bound, or entry whose node was already expanded). -/
theorem inv_skip (g : KnowledgeGraph) (s t : String) (maxHops : ℕ)
    (current : QueueEntry) (queue : List QueueEntry)
    (hist : List (String × ℕ))
    (hInv : Inv g s t maxHops (current :: queue) hist)
    (htgt : current.entityId ≠ t)
    (hskip : maxHops < current.path.length
      ∨ current.entityId ∈ histNodes hist) :
    Inv g s t maxHops queue hist := by
  have hcurq : current ∈ current :: queue := by simp
  refine ⟨fun e he => hInv.sound e (by simp [he]),
    fun e he => hInv.ids e (by simp [he]),
    (List.pairwise_cons.mp hInv.sorted).2,
    fun e1 he1 e2 he2 => hInv.window e1 (by simp [he1]) e2 (by simp [he2]),
    fun uc huc e he => hInv.histLe uc huc e (by simp [he]),
    hInv.histNe, ?_, ?_, ?_⟩
  · intro uc huc r hr hinc hot hle
    obtain ⟨e, he, heid, hcnt⟩ := hInv.target uc huc r hr hinc hot hle
    rcases List.mem_cons.mp he with rfl | he2
    · exact absurd heid htgt
    · exact ⟨e, he2, heid, hcnt⟩
  · intro uc huc r hr hinc hot hlt
    rcases hInv.closure uc huc r hr hinc hot hlt with
      ⟨c2, hmem2, hc2⟩ | ⟨e, he, heid, hcnt⟩
    · exact Or.inl ⟨c2, hmem2, hc2⟩
    · rcases List.mem_cons.mp he with rfl | he2
      · rcases hskip with hlen | hvis
        · exfalso
          obtain ⟨_, hlp, _⟩ := hInv.sound e hcurq
          omega
        · obtain ⟨uv, huv, hfst⟩ := List.mem_map.mp hvis
          refine Or.inl ⟨uv.2, ?_, ?_⟩
          · rw [heid] at hfst
            rw [show (otherEnd r uc.1, uv.2) = uv from ?_]
            · exact huv
            · rw [← hfst]
          · exact le_trans (hInv.histLe uv huv e hcurq) hcnt
      · exact Or.inr ⟨e, he2, heid, hcnt⟩
  · rcases hInv.root with ⟨e, he, heid, hnil⟩ | hroot | hmh
    · rcases List.mem_cons.mp he with rfl | he2
      · rcases hskip with hlen | hvis
        · refine Or.inr (Or.inr ⟨?_, ?_⟩)
          · obtain ⟨_, hlp, _⟩ := hInv.sound e hcurq
            rw [hnil] at hlp
            simp at hlp
            omega
          · rw [← heid]
            exact htgt
        · obtain ⟨uv, huv, hfst⟩ := List.mem_map.mp hvis
          have hle0 := hInv.histLe uv huv e hcurq
          rw [hnil] at hle0
          simp at hle0
          refine Or.inr (Or.inl ?_)
          rw [show (s, 0) = uv from ?_]
          · exact huv
          · rw [← heid, ← hfst, ← hle0]
      · exact Or.inl ⟨e, he2, heid, hnil⟩
    · exact Or.inr (Or.inl hroot)
    · exact Or.inr (Or.inr hmh)

end KnowledgeGraph

namespace KnowledgeGraph

theorem otherEnd_mem_graphIds (g : KnowledgeGraph) {r : Relation}
    (hr : r ∈ g.relations) (x : String) : otherEnd r x ∈ graphIds g := by
  unfold otherEnd graphIds
  by_cases h : r.source = x
  · rw [if_pos h]
    exact List.mem_append_right _ (List.mem_flatMap.mpr ⟨r, hr, by simp⟩)
  · rw [if_neg h]
    exact List.mem_append_right _ (List.mem_flatMap.mpr ⟨r, hr, by simp⟩)

/-- Destructing membership in the pushed child list. -/
theorem mem_newEntries (g : KnowledgeGraph) (current : QueueEntry)
    (visited : List String) {e : QueueEntry}
    (he : e ∈ (getEntityRelations g current.entityId).filterMap fun r =>
      if otherEnd r current.entityId ∈ current.entityId :: visited then none
      else
        some
          { entityId := otherEnd r current.entityId
            path := current.path ++ [otherEnd r current.entityId]
            edges := current.edges ++ [r] }) :
    ∃ r ∈ g.relations,
      (r.source = current.entityId ∨ r.target = current.entityId)
      ∧ e.entityId = otherEnd r current.entityId
      ∧ e.entityId ∉ current.entityId :: visited
      ∧ e.edges = current.edges ++ [r] := by
  obtain ⟨r, hr, he2⟩ := List.mem_filterMap.mp he
  by_cases hv : otherEnd r current.entityId ∈ current.entityId :: visited
  · rw [if_pos hv] at he2
    exact absurd he2 (by simp)
  · rw [if_neg hv] at he2
    have he3 := Option.some.inj he2
    subst he3
    refine ⟨r, List.mem_of_mem_filter hr, ?_, rfl, hv, rfl⟩
    simpa using List.of_mem_filter hr

/-- Constructing membership in the pushed child list. -/
theorem newEntries_mem_of (g : KnowledgeGraph) (current : QueueEntry)
    (visited : List String) {r : Relation} (hr : r ∈ g.relations)
    (hinc : r.source = current.entityId ∨ r.target = current.entityId)
    (hnv : otherEnd r current.entityId ∉ current.entityId :: visited) :
    ({ entityId := otherEnd r current.entityId
       path := current.path ++ [otherEnd r current.entityId]
       edges := current.edges ++ [r] } : QueueEntry)
    ∈ (getEntityRelations g current.entityId).filterMap fun r =>
      if otherEnd r current.entityId ∈ current.entityId :: visited then none
      else
        some
          { entityId := otherEnd r current.entityId
            path := current.path ++ [otherEnd r current.entityId]
            edges := current.edges ++ [r] } := by
  refine List.mem_filterMap.mpr ⟨r, ?_, ?_⟩
  · exact List.mem_filter.mpr ⟨hr, by simpa using hinc⟩
  · rw [if_neg hnv]

/-- Invariant preservation across the expansion branch: the popped entry's
node is recorded in the history at its edge count, and one child per
incident relation with unvisited far end is appended to the queue. -/
theorem inv_expand (g : KnowledgeGraph) (s t : String) (maxHops : ℕ)
    (current : QueueEntry) (queue : List QueueEntry)
    (hist : List (String × ℕ))
    (hInv : Inv g s t maxHops (current :: queue) hist)
    (htgt : current.entityId ≠ t)
    (hlen : ¬ maxHops < current.path.length)
    (hvis : current.entityId ∉ histNodes hist) :
    Inv g s t maxHops
      (queue ++ (getEntityRelations g current.entityId).filterMap fun r =>
        if otherEnd r current.entityId ∈ current.entityId :: histNodes hist
        then none
        else
          some
            { entityId := otherEnd r current.entityId
              path := current.path ++ [otherEnd r current.entityId]
              edges := current.edges ++ [r] })
      ((current.entityId, current.edges.length) :: hist) := by
  have hcurq : current ∈ current :: queue := by simp
  have hkq : ∀ e ∈ queue, current.edges.length ≤ e.edges.length :=
    (List.pairwise_cons.mp hInv.sorted).1
  have hNEsound := newEntries_sound g s maxHops current (histNodes hist)
    (hInv.sound current hcurq) hlen
  have hNEcount : ∀ e ∈ (getEntityRelations g current.entityId).filterMap
      fun r =>
        if otherEnd r current.entityId ∈ current.entityId :: histNodes hist
        then none
        else
          some
            ({ entityId := otherEnd r current.entityId
               path := current.path ++ [otherEnd r current.entityId]
               edges := current.edges ++ [r] } : QueueEntry),
      e.edges.length = current.edges.length + 1 := by
    intro e he
    obtain ⟨r, _, _, _, _, hee⟩ := mem_newEntries g current (histNodes hist) he
    rw [hee]
    simp
  refine ⟨?_, ?_, ?_, ?_, ?_, ?_, ?_, ?_, ?_⟩
  · intro e he
    rcases List.mem_append.mp he with he2 | he2
    · exact hInv.sound e (by simp [he2])
    · exact hNEsound e he2
  · intro e he
    rcases List.mem_append.mp he with he2 | he2
    · exact hInv.ids e (by simp [he2])
    · obtain ⟨r, hr, _, heid, _, _⟩ := mem_newEntries g current (histNodes hist) he2
      rw [heid]
      exact otherEnd_mem_graphIds g hr _
  · rw [List.pairwise_append]
    refine ⟨(List.pairwise_cons.mp hInv.sorted).2, ?_, ?_⟩
    · refine List.pairwise_of_forall_mem_list ?_
      intro a ha b hb
      rw [hNEcount a ha, hNEcount b hb]
    · intro e1 he1 e2 he2
      have h1 := hInv.window current hcurq e1 (by simp [he1])
      have h2 := hNEcount e2 he2
      omega
  · intro e1 he1 e2 he2
    rcases List.mem_append.mp he1 with h1 | h1 <;>
      rcases List.mem_append.mp he2 with h2 | h2
    · exact hInv.window e1 (by simp [h1]) e2 (by simp [h2])
    · have := hkq e1 h1
      have := hNEcount e2 h2
      omega
    · have := hInv.window current hcurq e2 (by simp [h2])
      have := hNEcount e1 h1
      omega
    · have := hNEcount e1 h1
      have := hNEcount e2 h2
      omega
  · intro uc huc e he
    rcases List.mem_cons.mp huc with rfl | huc2
    · rcases List.mem_append.mp he with h2 | h2
      · exact hkq e h2
      · have := hNEcount e h2
        omega
    · rcases List.mem_append.mp he with h2 | h2
      · exact hInv.histLe uc huc2 e (by simp [h2])
      · have := hInv.histLe uc huc2 current hcurq
        have := hNEcount e h2
        omega
  · intro uc huc
    rcases List.mem_cons.mp huc with rfl | huc2
    · exact htgt
    · exact hInv.histNe uc huc2
  · intro uc huc r hr hinc hot hle
    rcases List.mem_cons.mp huc with rfl | huc2
    · have hnt : t ∉ current.entityId :: histNodes hist := by
        simp only [List.mem_cons]
        push_neg
        refine ⟨fun h => htgt h.symm, fun hmem => ?_⟩
        obtain ⟨uv, huv, hfst⟩ := List.mem_map.mp hmem
        exact hInv.histNe uv huv hfst
      have hnv : otherEnd r current.entityId
          ∉ current.entityId :: histNodes hist := by
        rw [show otherEnd r current.entityId = t from hot]
        exact hnt
      refine ⟨_, List.mem_append_right _
        (newEntries_mem_of g current (histNodes hist) hr hinc hnv), hot, ?_⟩
      simp
    · obtain ⟨e, he, heid, hcnt⟩ := hInv.target uc huc2 r hr hinc hot hle
      rcases List.mem_cons.mp he with rfl | he2
      · exact absurd heid htgt
      · exact ⟨e, List.mem_append_left _ he2, heid, hcnt⟩
  · intro uc huc r hr hinc hot hguard
    rcases List.mem_cons.mp huc with rfl | huc2
    · by_cases hy : otherEnd r current.entityId
          ∈ current.entityId :: histNodes hist
      · rcases List.mem_cons.mp hy with hy0 | hyh
        · refine Or.inl ⟨current.edges.length, ?_, by omega⟩
          rw [show otherEnd r (current.entityId, current.edges.length).1
            = current.entityId from hy0]
          exact List.mem_cons_self _ _
        · obtain ⟨uv, huv, hfst⟩ := List.mem_map.mp hyh
          refine Or.inl ⟨uv.2, List.mem_cons_of_mem _ ?_, ?_⟩
          · rw [show (otherEnd r (current.entityId, current.edges.length).1,
              uv.2) = uv from ?_]
            · exact huv
            · rw [← hfst]
          · exact Nat.le_succ_of_le (hInv.histLe uv huv current hcurq)
      · refine Or.inr ⟨_, List.mem_append_right _
          (newEntries_mem_of g current (histNodes hist) hr hinc hy), rfl, ?_⟩
        simp
    · rcases hInv.closure uc huc2 r hr hinc hot hguard with
        ⟨c2, hm, hc⟩ | ⟨e, he, heid, hcnt⟩
      · exact Or.inl ⟨c2, List.mem_cons_of_mem _ hm, hc⟩
      · rcases List.mem_cons.mp he with rfl | he2
        · refine Or.inl ⟨e.edges.length, ?_, hcnt⟩
          rw [← heid]
          exact List.mem_cons_self _ _
        · exact Or.inr ⟨e, List.mem_append_left _ he2, heid, hcnt⟩
  · rcases hInv.root with ⟨e, he, heid, hnil⟩ | hroot | hmh
    · rcases List.mem_cons.mp he with rfl | he2
      · refine Or.inr (Or.inl ?_)
        have h2 : e.edges.length = 0 := by rw [hnil]; rfl
        rw [← heid, ← h2]
        exact List.mem_cons_self _ _
      · exact Or.inl ⟨e, List.mem_append_left _ he2, heid, hnil⟩
    · exact Or.inr (Or.inl (List.mem_cons_of_mem _ hroot))
    · exact Or.inr (Or.inr hmh)

end KnowledgeGraph

namespace KnowledgeGraph

/-- The termination measure of the loop: queue length plus a weighted count
of the ids not yet expanded. -/
def bfsMeasure (g : KnowledgeGraph) (q : List QueueEntry)
    (visited : List String) : ℕ :=
  q.length + (g.relations.length + 1) *
    ((graphIds g).filter fun i => decide (i ∉ visited)).length

theorem length_filter_mono {α : Type} (p q : α → Bool)
    (h : ∀ a, p a = true → q a = true) :
    ∀ l : List α, (l.filter p).length ≤ (l.filter q).length := by
  intro l
  induction l with
  | nil => simp
  | cons x xs ih =>
    simp only [List.filter_cons]
    by_cases hp : p x = true
    · rw [if_pos hp, if_pos (h x hp)]
      simpa using ih
    · rw [if_neg hp]
      by_cases hq : q x = true
      · rw [if_pos hq]
        exact le_trans ih (by simp)
      · rw [if_neg hq]
        exact ih

theorem filter_visited_lt (l v : List String) (x : String)
    (hx : x ∈ l) (hxv : x ∉ v) :
    (l.filter fun i => decide (i ∉ x :: v)).length
      < (l.filter fun i => decide (i ∉ v)).length := by
  induction l with
  | nil => cases hx
  | cons y ys ih =>
    have hmono := length_filter_mono
      (fun i => decide (i ∉ x :: v)) (fun i => decide (i ∉ v))
      (fun a ha => by
        simp only [decide_eq_true_eq, List.mem_cons] at ha ⊢
        exact fun hv => ha (Or.inr hv)) ys
    simp only [List.filter_cons]
    by_cases hy : y = x
    · subst hy
      rw [if_neg (by simp), if_pos (by simpa using hxv)]
      simp only [List.length_cons]
      omega
    · rcases List.mem_cons.mp hx with h | hx2
      · exact absurd h.symm hy
      · by_cases hyv : y ∈ v
        · rw [if_neg (by simp [hyv]), if_neg (by simp [hyv])]
          exact ih hx2
        · have hyxv : y ∉ x :: v := by
            simp only [List.mem_cons]
            push_neg
            exact ⟨hy, hyv⟩
          rw [if_pos (by simpa using hyxv), if_pos (by simpa using hyv)]
          simp only [List.length_cons]
          have := ih hx2
          omega

/-- At most one child per relation is pushed. -/
theorem newEntries_length_le (g : KnowledgeGraph) (current : QueueEntry)
    (visited : List String) :
    ((getEntityRelations g current.entityId).filterMap fun r =>
      if otherEnd r current.entityId ∈ current.entityId :: visited then none
      else
        some
          ({ entityId := otherEnd r current.entityId
             path := current.path ++ [otherEnd r current.entityId]
             edges := current.edges ++ [r] } : QueueEntry)).length
    ≤ g.relations.length :=
  le_trans (List.length_filterMap_le _ _)
    (List.length_filter_le _ _)

/-- The measure strictly drops across the expansion branch. -/
theorem bfsMeasure_expand (g : KnowledgeGraph) (current : QueueEntry)
    (queue : List QueueEntry) (visited : List String)
    (hid : current.entityId ∈ graphIds g)
    (hvis : current.entityId ∉ visited) :
    bfsMeasure g
      (queue ++ (getEntityRelations g current.entityId).filterMap fun r =>
        if otherEnd r current.entityId ∈ current.entityId :: visited
        then none
        else
          some
            ({ entityId := otherEnd r current.entityId
               path := current.path ++ [otherEnd r current.entityId]
               edges := current.edges ++ [r] } : QueueEntry))
      (current.entityId :: visited)
    < bfsMeasure g (current :: queue) visited := by
  have hflt := filter_visited_lt (graphIds g) visited current.entityId hid hvis
  have hne := newEntries_length_le g current visited
  unfold bfsMeasure
  rw [List.length_append]
  simp only [List.length_cons]
  have hF : ((graphIds g).filter
      fun i => decide (i ∉ current.entityId :: visited)).length + 1
      ≤ ((graphIds g).filter fun i => decide (i ∉ visited)).length := hflt
  set A := ((graphIds g).filter
    fun i => decide (i ∉ current.entityId :: visited)).length
  set B := ((graphIds g).filter fun i => decide (i ∉ visited)).length
  set R := g.relations.length
  calc queue.length + (List.filterMap _ _).length + (R + 1) * A
      ≤ queue.length + R + (R + 1) * A := by omega
    _ ≤ queue.length + R + (R + 1) * (B - 1) := by
        have : A ≤ B - 1 := by omega
        have := Nat.mul_le_mul_left (R + 1) this
        omega
    _ < queue.length + 1 + (R + 1) * B := by
        have hB1 : 1 ≤ B := by omega
        have : (R + 1) * (B - 1) + (R + 1) = (R + 1) * B := by
          have := Nat.succ_pred_eq_of_pos hB1
          calc (R + 1) * (B - 1) + (R + 1) = (R + 1) * (B - 1 + 1) := by ring
            _ = (R + 1) * B := by rw [Nat.sub_add_cancel hB1]
        omega

end KnowledgeGraph

namespace KnowledgeGraph

theorem histNodes_cons (u : String) (c : ℕ) (hist : List (String × ℕ)) :
    histNodes ((u, c) :: hist) = u :: histNodes hist := rfl

/-- Completeness and minimality: from an invariant state, given any
walkable path within the hop bound and enough fuel, the loop returns a
path, and the returned path's edge count undercuts every walkable path. -/
theorem bfsLoop_complete (g : KnowledgeGraph) (s t : String) (maxHops : ℕ) :
    ∀ (fuel : ℕ) (q : List QueueEntry) (hist : List (String × ℕ)),
      Inv g s t maxHops q hist →
      bfsMeasure g q (histNodes hist) < fuel →
      ∀ es0 : List Relation, RelPath g s t es0 → es0.length ≤ maxHops →
        ∃ p, bfsLoop g t maxHops fuel q (histNodes hist) = some p
          ∧ ∀ es, RelPath g s t es → p.edges.length ≤ es.length := by
  intro fuel
  induction fuel with
  | zero =>
    intro q hist _ hM es0 _ _
    omega
  | succ fuel ih =>
    intro q hist hInv hM es0 hes0 hlen0
    cases q with
    | nil =>
      exfalso
      rcases hInv.root with ⟨e, he, _, _⟩ | hroot | ⟨hmh, hst⟩
      · simp at he
      · exact bfs_walk g t maxHops [] hist (maxHops + 1) hInv.histNe
          hInv.target hInv.closure (fun e he => absurd he (by simp))
          (le_refl _) es0 s 0 hes0 hroot (by omega)
      · have hnil : es0 = [] := List.length_eq_zero.mp (by omega)
        subst hnil
        cases hes0
        exact hst rfl
    | cons current queue =>
      simp only [bfsLoop]
      by_cases htgt : current.entityId = t
      · rw [if_pos htgt]
        refine ⟨_, rfl, ?_⟩
        intro es hes
        show current.edges.length ≤ es.length
        by_contra hcon
        push_neg at hcon
        have hKall : ∀ e ∈ current :: queue,
            current.edges.length ≤ e.edges.length := by
          intro e he
          rcases List.mem_cons.mp he with rfl | he2
          · exact le_refl _
          · exact (List.pairwise_cons.mp hInv.sorted).1 e he2
        have hB : current.edges.length ≤ maxHops + 1 := by
          have := (hInv.sound current (by simp)).2.2
          omega
        rcases hInv.root with ⟨e, he, heid, hnil⟩ | hroot | ⟨hmh, hst⟩
        · have h0 := hKall e he
          rw [hnil] at h0
          simp only [List.length_nil] at h0
          omega
        · exact bfs_walk g t maxHops (current :: queue) hist
            current.edges.length hInv.histNe hInv.target hInv.closure
            hKall hB es s 0 hes hroot (by omega)
        · have := (hInv.sound current (by simp)).2.2
          omega
      · rw [if_neg htgt]
        have hMstep : bfsMeasure g (current :: queue) (histNodes hist)
            = bfsMeasure g queue (histNodes hist) + 1 := by
          unfold bfsMeasure
          simp only [List.length_cons]
          ring
        by_cases hlen : maxHops < current.path.length
        · rw [if_pos hlen]
          exact ih queue hist
            (inv_skip g s t maxHops current queue hist hInv htgt (Or.inl hlen))
            (by omega) es0 hes0 hlen0
        · rw [if_neg hlen]
          by_cases hvis : current.entityId ∈ histNodes hist
          · rw [if_pos hvis]
            exact ih queue hist
              (inv_skip g s t maxHops current queue hist hInv htgt
                (Or.inr hvis))
              (by omega) es0 hes0 hlen0
          · rw [if_neg hvis]
            have hid : current.entityId ∈ graphIds g :=
              hInv.ids current (by simp)
            have hInv2 := inv_expand g s t maxHops current queue hist hInv
              htgt hlen hvis
            have hdrop := bfsMeasure_expand g current queue (histNodes hist)
              hid hvis
            have hM2 : bfsMeasure g
                (queue ++ (getEntityRelations g current.entityId).filterMap
                  fun r =>
                    if otherEnd r current.entityId
                        ∈ current.entityId :: histNodes hist then none
                    else
                      some
                        ({ entityId := otherEnd r current.entityId
                           path := current.path
                             ++ [otherEnd r current.entityId]
                           edges := current.edges ++ [r] } : QueueEntry))
                (histNodes
                  ((current.entityId, current.edges.length) :: hist))
                < fuel := by
              rw [histNodes_cons]
              omega
            obtain ⟨p, hp, hmin⟩ := ih _ _ hInv2 hM2 es0 hes0 hlen0
            exact ⟨p, hp, hmin⟩

end KnowledgeGraph

namespace KnowledgeGraph

theorem getEntity_id_mem (g : KnowledgeGraph) (name : String) (ent : Entity)
    (h : getEntity g name = some ent) : ent.id ∈ graphIds g := by
  unfold getEntity at h
  split at h
  · exact absurd h (by simp)
  · split at h
    · exact absurd h (by simp)
    · have hm := List.mem_of_find?_eq_some h
      exact List.mem_append_left _ (List.mem_map.mpr ⟨ent, hm, rfl⟩)

end KnowledgeGraph

open KnowledgeGraph in
/-- C8: findPath resolves both entity names (returning none if either is
unknown), and runs a breadth-first search over the undirected relation
graph bounded by maxHops: it returns none exactly when no walkable
relation chain of at most maxHops edges connects the two entities, and
otherwise returns a path that chains from the source to the target, has at
most maxHops edges, has minimal edge count among all walkable chains, and
whose totalWeight is the sum of the traversed edges' weights. -/
theorem C8_findPath_spec (g : KnowledgeGraph) (sourceName targetName : String)
    (maxHops : ℕ) :
    ((getEntity g sourceName = none ∨ getEntity g targetName = none) →
      findPath g sourceName targetName maxHops = none)
    ∧ ∀ source target, getEntity g sourceName = some source →
        getEntity g targetName = some target →
        ((∀ es, RelPath g source.id target.id es → maxHops < es.length) →
          findPath g sourceName targetName maxHops = none)
        ∧ ∀ es0, RelPath g source.id target.id es0 → es0.length ≤ maxHops →
          ∃ p, findPath g sourceName targetName maxHops = some p
            ∧ RelPath g source.id target.id p.edges
            ∧ p.edges.length ≤ maxHops
            ∧ (∀ es, RelPath g source.id target.id es →
                p.edges.length ≤ es.length)
            ∧ p.totalWeight = (p.edges.map Relation.weight).sum := by
  constructor
  · intro h
    unfold findPath
    rcases h with h | h
    · rw [h]
    · rw [h]
      cases hs : getEntity g sourceName with
      | none => rfl
      | some src => rfl
  · intro source target hs ht
    have hsid : source.id ∈ graphIds g := getEntity_id_mem g sourceName source hs
    have hfind : findPath g sourceName targetName maxHops
        = bfsLoop g target.id maxHops (bfsFuel g)
          [⟨source.id, [source.id], []⟩] [] := by
      unfold findPath
      rw [hs, ht]
    have hq0 : ∀ e ∈ [(⟨source.id, [source.id], []⟩ : QueueEntry)],
        EntrySound g source.id maxHops e := by
      intro e he
      simp at he
      subst he
      exact ⟨RelPath.nil _, rfl, Nat.zero_le _⟩
    constructor
    · intro hno
      cases hp : findPath g sourceName targetName maxHops with
      | none => rfl
      | some p =>
        exfalso
        rw [hfind] at hp
        obtain ⟨hrp, hle, _⟩ := bfsLoop_sound g source.id target.id maxHops
          (bfsFuel g) [⟨source.id, [source.id], []⟩] [] hq0 p hp
        exact absurd (hno p.edges hrp) (by omega)
    · intro es0 hes0 hlen0
      have hInv0 : Inv g source.id target.id maxHops
          [⟨source.id, [source.id], []⟩] [] := by
        refine ⟨hq0, ?_, ?_, ?_, ?_, ?_, ?_, ?_, ?_⟩
        · intro e he
          simp at he
          subst he
          exact hsid
        · simp
        · intro e1 he1 e2 he2
          simp at he1 he2
          subst he1
          subst he2
          simp
        · intro uc huc
          simp at huc
        · intro uc huc
          simp at huc
        · intro uc huc
          simp at huc
        · intro uc huc
          simp at huc
        · exact Or.inl ⟨⟨source.id, [source.id], []⟩, by simp, rfl, rfl⟩
      have hM0 : bfsMeasure g [(⟨source.id, [source.id], []⟩ : QueueEntry)]
          (histNodes ([] : List (String × ℕ))) < bfsFuel g := by
        have h0 : histNodes ([] : List (String × ℕ)) = ([] : List String) := rfl
        rw [h0]
        unfold bfsMeasure bfsFuel
        have hfeq : ((graphIds g).filter
            fun i => decide (i ∉ ([] : List String))) = graphIds g :=
          List.filter_eq_self.mpr (fun a _ => by simp)
        rw [hfeq]
        simp only [List.length_cons, List.length_nil]
        omega
      obtain ⟨p, hp, hmin⟩ := bfsLoop_complete g source.id target.id maxHops
        (bfsFuel g) [⟨source.id, [source.id], []⟩] [] hInv0 hM0 es0 hes0 hlen0
      obtain ⟨hrp, hle, hw⟩ := bfsLoop_sound g source.id target.id maxHops
        (bfsFuel g) [⟨source.id, [source.id], []⟩] [] hq0 p hp
      exact ⟨p, by rw [hfind]; exact hp, hrp, hle, hmin, hw⟩

/-- Witness entity "a" of the three-node chain graph. -/
def entC8a : Entity := ⟨"n1", "a", "concept", [], 0, 0, 1⟩

/-- Witness entity "b". -/
def entC8b : Entity := ⟨"n2", "b", "concept", [], 0, 0, 1⟩

/-- Witness entity "c". -/
def entC8c : Entity := ⟨"n3", "c", "concept", [], 0, 0, 1⟩

/-- Witness relation a—b. -/
def relC8ab : Relation := ⟨"r1", "n1", "n2", "related_to", 1, [], 0⟩

/-- Witness relation b—c. -/
def relC8bc : Relation := ⟨"r2", "n2", "n3", "related_to", 1, [], 0⟩

/-- A three-entity chain a—b—c. -/
def gC8 : KnowledgeGraph :=
  ⟨[entC8a, entC8b, entC8c], [relC8ab, relC8bc],
   [("a", "n1"), ("b", "n2"), ("c", "n3")]⟩

open KnowledgeGraph in
theorem C8_witness :
    findPath gC8 "zz" "c" 2 = none
    ∧ (findPath gC8 "a" "c" 2).isSome = true := by
  constructor
  · exact (C8_findPath_spec gC8 "zz" "c" 2).1 (Or.inl (by decide))
  · obtain ⟨p, hp, _⟩ :=
      ((C8_findPath_spec gC8 "a" "c" 2).2 entC8a entC8c (by decide)
        (by decide)).2 [relC8ab, relC8bc]
        (RelPath.cons (List.mem_cons_self _ _) (Or.inl rfl)
          (RelPath.cons (List.mem_cons_of_mem _ (List.mem_cons_self _ _))
            (Or.inl rfl) (RelPath.nil "n3")))
        (by decide)
    rw [hp]
    rfl
